import Mathlib

/-!
# gitlab-rm-runners: a shallow embedding of `main.go`

The program lists the runners of a GitLab server page by page, keeps those whose
description matches a regular expression in a map keyed by description, and
then either deletes them (`-force`) or logs them (dry run).

Everything the program does to the outside is recorded in a `World`: the HTTP
requests handed to `client.Do`, the logrus records, and the lines written to
standard error.  The Go standard library, the HTTP server and the runtime's map
iteration order are external to the repository; they are the fields of `Env`,
and every theorem holds for all of them.  The server may answer a request
differently depending on the requests it has seen before.  The page loop of
`main` is unbounded, so `main` takes a fuel that bounds the number of pages
fetched; a run that needs more ends as `Exit.outOfFuel`.
-/

namespace GitlabRmRunners

/-! ## Data model -/

/-- Runner record `glRunner` of `main.go` (lines 17-20); `ID` is a `uint64`, which
the program only copies and prints. -/
structure glRunner where
  ID : Nat
  Description : String
deriving DecidableEq, Repr

/-- The fields of Go's `url.URL` that a parsed URL carries as text. `main` reads
and writes `Path`, `RawPath` and `RawQuery`. -/
structure URL where
  Scheme : String := ""
  User : Option String := none
  Host : String := ""
  Path : String := ""
  RawPath : String := ""
  ForceQuery : Bool := false
  RawQuery : String := ""
  Fragment : String := ""
deriving DecidableEq, Repr

/-- The `http.Request` literal built by `req` (line 150). -/
structure Request where
  Method : String
  URL : URL
  Header : List (String × List String)
deriving DecidableEq, Repr

/-- What `req` looks at in an `http.Response`: the status code and the outcome
of `ioutil.ReadAll` on the body. -/
structure Response where
  StatusCode : Int
  Body : Except String String

/-- Logrus levels used by the program. -/
inductive Level where
  | Info
  | Debug
deriving DecidableEq, Repr

/-- Values stored in the fields of a logrus record. -/
inductive FieldValue where
  | str (s : String)
  | uint (n : Nat)
  | url (u : URL)
  | headers (h : List (String × String))
deriving DecidableEq, Repr

/-- One logrus record: level, message and fields. -/
structure LogEntry where
  level : Level
  msg : String
  fields : List (String × FieldValue)
deriving DecidableEq, Repr

/-- Everything observable from outside the process, in the order produced. -/
structure World where
  requests : List Request := []
  logs : List LogEntry := []
  stderr : List String := []
deriving DecidableEq, Repr

/-- How a run ends: `os.Exit(code)` (or falling off `main`, code 0), a Go panic,
or the embedding's fuel for the unbounded page loop running out. -/
inductive Exit where
  | code (n : Nat)
  | panic (msg : String)
  | outOfFuel
deriving DecidableEq, Repr

/-- A finished (or fuel-exhausted) run of `main`. -/
structure Run where
  world : World
  exit : Exit
deriving DecidableEq, Repr

/-- The external collaborators of `main.go`: `url.Parse`, `(*URL).ResolveReference`,
`regexp.Compile` (a compiled pattern is its `MatchString`), `client.Do` (the
server: its answer to a request may depend on all the requests issued before,
which are its first argument), `json.Unmarshal` into a `[]glRunner`, and the
order in which `range` visits a map (any permutation of its entries). -/
structure Env where
  urlParse : String → Except String URL
  resolveReference : URL → URL → URL
  regexpCompile : String → Except String (String → Bool)
  clientDo : List Request → Request → Except String Response
  jsonUnmarshal : String → Except String (List glRunner)
  rangeOrder : (m : List (String × Nat)) → { l : List (String × Nat) // l.Perm m }

/-- Command line and environment after `flag.Parse`: the `-baseurl`, `-pattern`
and `-force` values, `os.Getenv("TOKEN")` and `os.Args[0]`. -/
structure Args where
  baseUrl : String
  pattern : String
  force : Bool
  TOKEN : String
  arg0 : String := "gitlab-rm-runners"
deriving DecidableEq, Repr

/-! ## The map `allRunners` -/

/-- Go's `m[k] = v` on a `map[string]uint64` kept as an association list with
distinct keys: an existing key gets the new value, a new key is added. -/
def mapSet : List (String × Nat) → String → Nat → List (String × Nat)
  | [], k, v => [(k, v)]
  | (k', v') :: rest, k, v =>
    if k' = k then (k, v) :: rest else (k', v') :: mapSet rest k v

/-- Go's `m[k]` lookup with presence flag. -/
def mapGet : List (String × Nat) → String → Option Nat
  | [], _ => none
  | (k', v') :: rest, k => if k' = k then some v' else mapGet rest k

/-! ## Helpers of `main.go` -/

/-- Go's `strings.HasSuffix`. -/
def HasSuffix (s suffix : String) : Bool :=
  suffix.data.isSuffixOf s.data

/-- Function `usage` (lines 123-125): the line written to standard error. -/
def usage (arg0 : String) : String :=
  "Usage: TOKEN=123456 " ++ arg0 ++
    " -baseurl https://gitlab.example.com/ -pattern test [-force]\n"

/-- Function `parseURL` (lines 114-121): `url.Parse`, panicking on error. -/
def parseURL (env : Env) (uri : String) : Except String URL :=
  env.urlParse uri

/-- The record logged by `req` before the request is sent (lines 144-148). -/
def requestLog (method : String) (urAL : URL) : LogEntry :=
  { level := Level.Info
    msg := "performing HTTP request"
    fields := [("method", FieldValue.str method), ("url", FieldValue.url urAL),
      ("headers", FieldValue.headers [("Private-Token", "***")])] }

/-- The record logged by `req` after the body was read (lines 166-171). -/
def responseLog (method : String) (urAL : URL) (body : String) : LogEntry :=
  { level := Level.Debug
    msg := "got HTTP response"
    fields := [("method", FieldValue.str method), ("url", FieldValue.url urAL),
      ("request_headers", FieldValue.headers [("Private-Token", "***")]),
      ("body", FieldValue.str body)] }

/-- The `http.Request` that `req` hands to `client.Do` (line 150). -/
def mkRequest (token method : String) (urAL : URL) : Request :=
  { Method := method, URL := urAL, Header := [("Private-Token", [token])] }

/-- Function `req` (lines 143-174). The server sees the request together with the
requests issued before it. -/
def req (env : Env) (token method : String) (urAL : URL) (w : World) :
    World × Except String String :=
  let w1 : World := { w with logs := w.logs ++ [requestLog method urAL] }
  let w2 : World := { w1 with requests := w1.requests ++ [mkRequest token method urAL] }
  match env.clientDo w.requests (mkRequest token method urAL) with
  | Except.error errReq => (w2, Except.error errReq)
  | Except.ok res =>
    if res.StatusCode > 299 then
      (w2, Except.error ("got HTTP status " ++ toString res.StatusCode))
    else
      match res.Body with
      | Except.error errRA => (w2, Except.error errRA)
      | Except.ok body =>
        ({ w2 with logs := w2.logs ++ [responseLog method urAL body] }, Except.ok body)

/-- Function `getJson` (lines 134-141), at the type `[]glRunner`. -/
def getJson (env : Env) (token : String) (urAL : URL) (w : World) :
    World × Except String (List glRunner) :=
  match req env token "GET" urAL w with
  | (w1, Except.error errReq) => (w1, Except.error errReq)
  | (w1, Except.ok body) => (w1, env.jsonUnmarshal body)

/-- Function `assert` on a non-nil error (lines 127-132): print it and
`os.Exit(1)`. -/
def assertFail (w : World) (err : String) : Run :=
  { world := { w with stderr := w.stderr ++ [err ++ "\n"] }, exit := Exit.code 1 }

/-! ## `main` -/

/-- A `ConfigError` exit of `main`: the message, the usage line, `os.Exit(2)`. -/
def configError (a : Args) (msg : String) : Run :=
  { world := { stderr := [msg ++ "\n", usage a.arg0] }, exit := Exit.code 2 }

/-- Lines 66-69 of `main`: append a slash to `Path` and `RawPath` unless `Path`
already ends in one. -/
def ensureTrailingSlash (rootURL : URL) : URL :=
  if !HasSuffix rootURL.Path "/" then
    { rootURL with Path := rootURL.Path ++ "/", RawPath := rootURL.RawPath ++ "/" }
  else rootURL

/-- Lines 33-69 of `main`: the checks that end in `os.Exit(2)`, then the
normalised root URL and the compiled pattern. -/
def validate (env : Env) (a : Args) : Except Run (URL × (String → Bool)) :=
  if a.baseUrl = "" then Except.error (configError a "base URL missing")
  else if a.pattern = "" then Except.error (configError a "pattern missing")
  else if a.TOKEN = "" then Except.error (configError a "token missing")
  else
    match env.urlParse a.baseUrl with
    | Except.error errURL => Except.error (configError a ("bad base URL: " ++ errURL))
    | Except.ok rootURL =>
      match env.regexpCompile a.pattern with
      | Except.error errRC => Except.error (configError a ("bad pattern: " ++ errRC))
      | Except.ok rgx => Except.ok (ensureTrailingSlash rootURL, rgx)

/-- Line 78 of `main`: the collection URL with `RawQuery` set to `page=<n>`. -/
def pageURL (runnersURL : URL) (page : Nat) : URL :=
  { runnersURL with RawQuery := "page=" ++ Nat.repr page }

/-- Lines 87-91 of `main`: fold one page of runners into `allRunners`. -/
def addMatches (rgx : String → Bool) (allRunners : List (String × Nat))
    (runners : List glRunner) : List (String × Nat) :=
  runners.foldl
    (fun m runner => if rgx runner.Description then mapSet m runner.Description runner.ID else m)
    allRunners

/-- Lines 74-95 of `main`: the page loop. `page` is a `uint64`, so `page++`
wraps at `2^64`. One unit of fuel is one iteration; the loop returns the map on
`break` and a finished run when `assert` exits. -/
def collect (env : Env) (token : String) (rgx : String → Bool) (runnersURL : URL) :
    Nat → Nat → List (String × Nat) → World → World × Except Exit (List (String × Nat))
  | 0, _, _, w => (w, Except.error Exit.outOfFuel)
  | fuel + 1, page, allRunners, w =>
    match getJson env token (pageURL runnersURL page) w with
    | (w1, Except.error err) => ((assertFail w1 err).world, Except.error (assertFail w1 err).exit)
    | (w1, Except.ok runners) =>
      if runners.length < 1 then (w1, Except.ok allRunners)
      else
        collect env token rgx runnersURL fuel ((page + 1) % 2 ^ 64)
          (addMatches rgx allRunners runners) w1

/-- Lines 98-103 of `main`: one `DELETE` per visited map entry; `runnersURL`
already has its `RawQuery` cleared. -/
def deleteAll (env : Env) (token : String) (runnersURL : URL) :
    List (String × Nat) → World → Run
  | [], w => { world := w, exit := Exit.code 0 }
  | (_, id) :: rest, w =>
    match parseURL env (Nat.repr id) with
    | Except.error errURL => { world := w, exit := Exit.panic errURL }
    | Except.ok ref =>
      match req env token "DELETE" (env.resolveReference runnersURL ref) w with
      | (w1, Except.error errReq) => assertFail w1 errReq
      | (w1, Except.ok _) => deleteAll env token runnersURL rest w1

/-- The record logged for one entry in a dry run (lines 106-109). -/
def notRemovedLog (desc : String) (id : Nat) : LogEntry :=
  { level := Level.Info
    msg := "Not removed runner"
    fields := [("id", FieldValue.uint id), ("description", FieldValue.str desc)] }

/-- Lines 105-110 of `main`: one record per visited map entry. -/
def reportAll (entries : List (String × Nat)) (w : World) : Run :=
  { world := { w with logs := w.logs ++ entries.map (fun e => notRemovedLog e.1 e.2) }
    exit := Exit.code 0 }

/-- Lines 97-111 of `main`: the branch on `*force`. -/
def dispatch (env : Env) (token : String) (force : Bool) (runnersURL : URL)
    (allRunners : List (String × Nat)) (w : World) : Run :=
  if force then
    deleteAll env token { runnersURL with RawQuery := "" } (env.rangeOrder allRunners).1 w
  else
    reportAll (env.rangeOrder allRunners).1 w

/-- Function `main` (lines 25-112), with `fuel` bounding the page loop. -/
def main (env : Env) (a : Args) (fuel : Nat) : Run :=
  match validate env a with
  | Except.error run => run
  | Except.ok (rootURL, rgx) =>
    match parseURL env "api/v4/runners/" with
    | Except.error errURL => { world := {}, exit := Exit.panic errURL }
    | Except.ok ref =>
      let runnersURL := env.resolveReference rootURL ref
      match collect env a.TOKEN rgx runnersURL fuel 1 [] {} with
      | (w, Except.error exit) => { world := w, exit := exit }
      | (w, Except.ok allRunners) => dispatch env a.TOKEN a.force runnersURL allRunners w

/-! ## A test double for the external collaborators

`mockEnv` is a small stand-in used to run `main` on concrete inputs: a URL parser
that knows the base URL of the example scenario and relative paths, a pattern
compiler for anchored literals, and a server given by a table of pages. -/

/-- Test double for `url.Parse`. -/
def mockParse (s : String) : Except String URL :=
  if s = "https://git.example/" then
    Except.ok { Scheme := "https", Host := "git.example", Path := "/" }
  else if s.data.head? = some ':' then Except.error "missing protocol scheme"
  else Except.ok { Path := s }

/-- Test double for `ResolveReference` with a relative path below a directory. -/
def mockResolve (base ref : URL) : URL :=
  { ref with Scheme := base.Scheme, User := base.User, Host := base.Host,
             Path := base.Path ++ ref.Path, RawPath := "" }

/-- Test double for `regexp.Compile`: `^lit` matches the strings that start with
`lit`, `(` does not compile, any other text matches the strings equal to it. -/
def mockCompile (p : String) : Except String (String → Bool) :=
  if p = "(" then Except.error "missing closing )"
  else if p.data.head? = some '^' then Except.ok (fun s => p.data.tail.isPrefixOf s.data)
  else Except.ok (fun s => decide (s = p))

/-- Test double for the server, which ignores the earlier requests: `GET` with
`page=<n>` returns the body of the n-th entry of `pages` (an empty array beyond
the table), any other request an empty body; the status code is chosen by
`status`. -/
def mockDo (pages : List (String × List glRunner)) (status : Request → Int)
    (_ : List Request) (r : Request) : Except String Response :=
  Except.ok
    { StatusCode := status r
      Body :=
        if r.Method = "GET" then
          match (List.range pages.length).find?
              (fun i => decide (r.URL.RawQuery = "page=" ++ Nat.repr (i + 1))) with
          | some i => Except.ok ((pages.map Prod.fst).getD i "[]")
          | none => Except.ok "[]"
        else Except.ok "" }

/-- Test double for `json.Unmarshal`: the decoding listed in the table. -/
def mockUnmarshal (pages : List (String × List glRunner)) (body : String) :
    Except String (List glRunner) :=
  if body = "[]" then Except.ok []
  else
    match pages.find? (fun p => decide (p.1 = body)) with
    | some p => Except.ok p.2
    | none => Except.error "invalid character"

/-- The test double: `range` visits the map in the order of the association list. -/
def mockEnv (pages : List (String × List glRunner)) (status : Request → Int) : Env :=
  { urlParse := mockParse
    resolveReference := mockResolve
    regexpCompile := mockCompile
    clientDo := mockDo pages status
    jsonUnmarshal := mockUnmarshal pages
    rangeOrder := fun m => ⟨m, List.Perm.refl m⟩ }

/-- Every request answered with status 200. -/
def allOk : Request → Int := fun _ => 200

/-- Every `DELETE` answered with status 404, any other request with 200. -/
def deleteFails : Request → Int := fun r => if r.Method = "DELETE" then 404 else 200

/-- The server of the example scenario: page 1 holds runner 5 `ci-a` and runner 6
`other`; every later page is empty. -/
def examplePages : List (String × List glRunner) :=
  [("[\x7b\"id\":5,\"description\":\"ci-a\"\x7d,\x7b\"id\":6,\"description\":\"other\"\x7d]",
    [{ ID := 5, Description := "ci-a" }, { ID := 6, Description := "other" }])]

/-- The command line of the example scenario. -/
def exampleArgs (force : Bool) : Args :=
  { baseUrl := "https://git.example/", pattern := "^ci-", force := force, TOKEN := "s3cret" }

/-- The command line of the example scenario with any token and program name. -/
def scenarioArgs (token arg0 : String) (force : Bool) : Args :=
  { baseUrl := "https://git.example/", pattern := "^ci-", force := force, TOKEN := token,
    arg0 := arg0 }

/-- The collection URL of the example scenario. -/
def exampleRunnersURL : URL :=
  { Scheme := "https", Host := "git.example", Path := "/api/v4/runners/" }

/-- A server where runners 1 and 2 share the description `ci-a` on different
pages and runner 1 shows up again as `ci-b`. -/
def sharedPages : List (String × List glRunner) :=
  [("[1]", [{ ID := 1, Description := "ci-a" }]),
    ("[2,1]", [{ ID := 2, Description := "ci-a" }, { ID := 1, Description := "ci-b" }])]

/-- A server where runners 1 and 2 share the description `ci-a` on one page. -/
def twinPages : List (String × List glRunner) :=
  [("[1,2]", [{ ID := 1, Description := "ci-a" }, { ID := 2, Description := "ci-a" }])]

/-- The compiled pattern of the example scenario in the test double. -/
def exampleRgx : String → Bool :=
  fun s => ("^ci-" : String).data.tail.isPrefixOf s.data

/-- A server with a non-empty page, an empty page, and a non-empty page. -/
def gapPages : List (String × List glRunner) :=
  [("[a]", [{ ID := 1, Description := "ci-a" }]), ("[]", []),
    ("[b]", [{ ID := 2, Description := "ci-b" }])]

/-! ## Vocabulary of the claims -/

/-- After the requests `before`, the server answers request `r` with a status
code above 299. -/
def failing (env : Env) (before : List Request) (r : Request) : Bool :=
  match env.clientDo before r with
  | Except.ok res => decide (res.StatusCode > 299)
  | Except.error _ => false

/-- After the requests `before`, the server answers request `r`, and with a
status code of at most 299. -/
def succeeded (env : Env) (before : List Request) (r : Request) : Bool :=
  match env.clientDo before r with
  | Except.ok res => decide (res.StatusCode ≤ 299)
  | Except.error _ => false

/-- After the requests `before`, the server answers request `r` with a status
code of at most 299 and a body that can be read: `req` succeeds on it. -/
def answeredOk (env : Env) (before : List Request) (r : Request) : Bool :=
  match env.clientDo before r with
  | Except.ok res =>
    decide (res.StatusCode ≤ 299) &&
      (match res.Body with
       | Except.ok _ => true
       | Except.error _ => false)
  | Except.error _ => false

/-- The requests `rs`, issued one after the other after the requests `before`,
each satisfy `p` at the moment it is issued. -/
def eachInTurn (p : List Request → Request → Bool) : List Request → List Request → Bool
  | _, [] => true
  | before, r :: rest => p before r && eachInTurn p (before ++ [r]) rest

/-- The `GET` requests for pages `1..k`, in order. -/
def pageRequests (token : String) (runnersURL : URL) (k : Nat) : List Request :=
  (List.range k).map (fun i => mkRequest token "GET" (pageURL runnersURL (i + 1)))

/-- What page `page` decodes to: the value `getJson` returns for its URL when the
page is fetched after pages `1..page-1`, as `main` does. -/
def pageRecords (env : Env) (token : String) (runnersURL : URL) (page : Nat) :
    Except String (List glRunner) :=
  (getJson env token (pageURL runnersURL page)
    { requests := pageRequests token runnersURL (page - 1) }).2

/-- The records of page `page`, none when the fetch or the decoding fails. -/
def pageList (env : Env) (token : String) (runnersURL : URL) (page : Nat) : List glRunner :=
  match pageRecords env token runnersURL page with
  | Except.ok rs => rs
  | Except.error _ => []

/-- The records of the `n` pages starting at page `first`, in fetch order. -/
def recordsFrom (env : Env) (token : String) (runnersURL : URL) : Nat → Nat → List glRunner
  | _, 0 => []
  | first, n + 1 =>
    pageList env token runnersURL first ++ recordsFrom env token runnersURL (first + 1) n

/-- The records of pages `1..n`, in fetch order. -/
def fetchedRecords (env : Env) (token : String) (runnersURL : URL) (n : Nat) : List glRunner :=
  recordsFrom env token runnersURL 1 n

/-- The id of the last record with description `d`, in list order. -/
def lastId (rs : List glRunner) (d : String) : Option Nat :=
  ((rs.filter (fun r => decide (r.Description = d))).getLast?).map glRunner.ID

/-- The distinct descriptions among the records that match the pattern. -/
def matchingDescriptions (rgx : String → Bool) (rs : List glRunner) : List String :=
  ((rs.map glRunner.Description).filter rgx).dedup

/-- The `DELETE` requests that the dispatcher issues for the ids of `entries`, in
order, when the decimal text of an id `n` parses to the URL `refOf n`. -/
def deleteRequests (env : Env) (token : String) (runnersURL : URL) (refOf : Nat → URL)
    (entries : List (String × Nat)) : List Request :=
  entries.map (fun e => mkRequest token "DELETE"
    (env.resolveReference { runnersURL with RawQuery := "" } (refOf e.2)))

/-- The dry-run records among the log records. -/
def notRemoved (logs : List LogEntry) : List LogEntry :=
  logs.filter (fun e => decide (e.msg = "Not removed runner"))

/-- The `GET` requests among the requests. -/
def fetches (requests : List Request) : List Request :=
  requests.filter (fun r => decide (r.Method = "GET"))

/-- The `DELETE` requests among the requests. -/
def deletes (requests : List Request) : List Request :=
  requests.filter (fun r => decide (r.Method = "DELETE"))

end GitlabRmRunners

namespace GitlabRmRunners

/-! ## `req` and `getJson` -/

theorem req_requests (env : Env) (token method : String) (urAL : URL) (w : World) :
    (req env token method urAL w).1.requests = w.requests ++ [mkRequest token method urAL] := by
  unfold req
  cases env.clientDo w.requests (mkRequest token method urAL) with
  | error e => rfl
  | ok res =>
    dsimp only
    split
    · rfl
    · cases res.Body <;> rfl

theorem req_logs (env : Env) (token method : String) (urAL : URL) (w : World) :
    ∃ more, (req env token method urAL w).1.logs = w.logs ++ requestLog method urAL :: more ∧
      ∀ e ∈ more, e.level = Level.Debug ∧ e.msg = "got HTTP response" := by
  unfold req
  cases env.clientDo w.requests (mkRequest token method urAL) with
  | error e => exact ⟨[], rfl, by simp⟩
  | ok res =>
    dsimp only
    split
    · exact ⟨[], rfl, by simp⟩
    · cases hb : res.Body with
      | error e => exact ⟨[], rfl, by simp⟩
      | ok body =>
        refine ⟨[responseLog method urAL body], by simp, ?_⟩
        intro e he
        simp only [List.mem_singleton] at he
        subst he
        exact ⟨rfl, rfl⟩

/-- An error returned by `req` for a request the server answered with a status
of at most 299 can only come from reading the body. -/
theorem req_result_of_status_le (env : Env) (token method : String) (urAL : URL) (w : World)
    (res : Response) (hdo : env.clientDo w.requests (mkRequest token method urAL) = Except.ok res)
    (hst : res.StatusCode ≤ 299) :
    (req env token method urAL w).2 = res.Body := by
  unfold req
  rw [hdo]
  dsimp only
  rw [if_neg (by omega)]
  cases res.Body <;> rfl

/-- The value `req` returns depends on the world only through the requests
issued so far. -/
theorem req_snd_congr (env : Env) (token method : String) (urAL : URL) (w w' : World)
    (h : w.requests = w'.requests) :
    (req env token method urAL w).2 = (req env token method urAL w').2 := by
  unfold req
  rw [h]
  cases env.clientDo w'.requests (mkRequest token method urAL) with
  | error e => rfl
  | ok res =>
    dsimp only
    split
    · rfl
    · cases res.Body <;> rfl

theorem getJson_world (env : Env) (token : String) (urAL : URL) (w : World) :
    (getJson env token urAL w).1 = (req env token "GET" urAL w).1 := by
  unfold getJson
  rcases hr : req env token "GET" urAL w with ⟨w1, _ | _⟩ <;> rfl

theorem getJson_snd_congr (env : Env) (token : String) (urAL : URL) (w w' : World)
    (hw : w.requests = w'.requests) :
    (getJson env token urAL w).2 = (getJson env token urAL w').2 := by
  have h := req_snd_congr env token "GET" urAL w w' hw
  unfold getJson
  rcases hr : req env token "GET" urAL w with ⟨w1, r1⟩
  rcases hr' : req env token "GET" urAL w' with ⟨w1', r1'⟩
  rw [hr, hr'] at h
  dsimp only at h
  subst h
  cases r1 <;> rfl

/-! ## C9: the request log never shows the credential -/

/-- C9. For every method, URL and world, the informational records after `req` are
the earlier ones followed by one record holding the method, the URL and the
constant `***` for `Private-Token`; they are the same for any two tokens, while
the request handed to `client.Do` carries the real token in its header. -/
theorem req_log_redacts_token (env : Env) (method : String) (urAL : URL) (t1 t2 : String)
    (w : World) :
    (req env t1 method urAL w).1.logs.filter (fun e => decide (e.level = Level.Info)) =
        (req env t2 method urAL w).1.logs.filter (fun e => decide (e.level = Level.Info)) ∧
      (req env t1 method urAL w).1.logs.filter (fun e => decide (e.level = Level.Info)) =
        w.logs.filter (fun e => decide (e.level = Level.Info)) ++
          [{ level := Level.Info, msg := "performing HTTP request",
             fields := [("method", FieldValue.str method), ("url", FieldValue.url urAL),
               ("headers", FieldValue.headers [("Private-Token", "***")])] }] ∧
      (req env t1 method urAL w).1.requests =
        w.requests ++ [{ Method := method, URL := urAL, Header := [("Private-Token", [t1])] }] := by
  have key : ∀ t, (req env t method urAL w).1.logs.filter (fun e => decide (e.level = Level.Info)) =
      w.logs.filter (fun e => decide (e.level = Level.Info)) ++ [requestLog method urAL] := by
    intro t
    obtain ⟨more, hlogs, hmore⟩ := req_logs env t method urAL w
    have hnil : more.filter (fun e => decide (e.level = Level.Info)) = [] := by
      rw [List.filter_eq_nil_iff]
      intro e he
      rw [(hmore e he).1]
      decide
    rw [hlogs, List.filter_append, List.filter_cons, hnil]
    rfl
  refine ⟨?_, ?_, ?_⟩
  · rw [key t1, key t2]
  · exact key t1
  · exact req_requests env t1 method urAL w

/-! ## C4: configuration errors -/

theorem validate_error_run (env : Env) (a : Args) (run : Run)
    (h : validate env a = Except.error run) :
    run.exit = Exit.code 2 ∧ run.world.requests = [] ∧ run.world.logs = [] := by
  unfold validate at h
  split at h
  · cases h; exact ⟨rfl, rfl, rfl⟩
  split at h
  · cases h; exact ⟨rfl, rfl, rfl⟩
  split at h
  · cases h; exact ⟨rfl, rfl, rfl⟩
  split at h
  · cases h; exact ⟨rfl, rfl, rfl⟩
  split at h
  · cases h; exact ⟨rfl, rfl, rfl⟩
  · cases h

theorem validate_ok_iff (env : Env) (a : Args) (rootURL : URL) (rgx : String → Bool) :
    validate env a = Except.ok (rootURL, rgx) ↔
      a.baseUrl ≠ "" ∧ a.pattern ≠ "" ∧ a.TOKEN ≠ "" ∧
        ∃ parsed, env.urlParse a.baseUrl = Except.ok parsed ∧
          env.regexpCompile a.pattern = Except.ok rgx ∧ rootURL = ensureTrailingSlash parsed := by
  unfold validate
  constructor
  · intro h
    split at h
    · cases h
    split at h
    · cases h
    split at h
    · cases h
    rename_i h1 h2 h3
    cases hp : env.urlParse a.baseUrl with
    | error e => rw [hp] at h; cases h
    | ok parsed =>
      rw [hp] at h
      dsimp only at h
      cases hc : env.regexpCompile a.pattern with
      | error e => rw [hc] at h; cases h
      | ok r =>
        rw [hc] at h
        dsimp only at h
        injection h with h
        injection h with hu hr
        subst hr
        exact ⟨h1, h2, h3, parsed, rfl, rfl, hu.symm⟩
  · rintro ⟨h1, h2, h3, parsed, hp, hc, hu⟩
    rw [if_neg h1, if_neg h2, if_neg h3, hp]
    dsimp only
    rw [hc, hu]

/-- C4. When the base URL, the pattern or the token is empty, or the pattern
does not compile, or the base URL does not parse, `main` ends with exit code 2
and has issued no request. -/
theorem invalid_config_exits_2_without_requests (env : Env) (a : Args) (fuel : Nat)
    (h : a.baseUrl = "" ∨ a.pattern = "" ∨ a.TOKEN = "" ∨
      (∃ e, env.regexpCompile a.pattern = Except.error e) ∨
      (∃ e, env.urlParse a.baseUrl = Except.error e)) :
    (main env a fuel).exit = Exit.code 2 ∧ (main env a fuel).world.requests = [] := by
  cases hv : validate env a with
  | error run =>
    have hr := validate_error_run env a run hv
    unfold main
    rw [hv]
    exact ⟨hr.1, hr.2.1⟩
  | ok cfg =>
    obtain ⟨rootURL, rgx⟩ := cfg
    obtain ⟨h1, h2, h3, parsed, hp, hc, _⟩ := (validate_ok_iff env a rootURL rgx).mp hv
    rcases h with h | h | h | ⟨e, h⟩ | ⟨e, h⟩
    · exact absurd h h1
    · exact absurd h h2
    · exact absurd h h3
    · rw [hc] at h; cases h
    · rw [hp] at h; cases h

/-- C4 at the pattern `(` of the test double, with no page on the server. -/
theorem invalid_config_exits_2_without_requests_witness :
    (∃ e, (mockEnv [] allOk).regexpCompile "(" = Except.error e) ∧
      (main (mockEnv [] allOk)
        { baseUrl := "https://git.example/", pattern := "(", force := true, TOKEN := "t" } 3).exit
          = Exit.code 2 ∧
      (main (mockEnv [] allOk)
        { baseUrl := "https://git.example/", pattern := "(", force := true, TOKEN := "t" }
          3).world.requests = [] :=
  ⟨⟨_, rfl⟩,
    invalid_config_exits_2_without_requests (mockEnv [] allOk)
      { baseUrl := "https://git.example/", pattern := "(", force := true, TOKEN := "t" } 3
      (Or.inr (Or.inr (Or.inr (Or.inl ⟨_, rfl⟩))))⟩

/-! ## C6: the trailing slash of the root URL -/

theorem hasSuffix_iff (s t : String) : HasSuffix s t = true ↔ t.data <:+ s.data := by
  unfold HasSuffix
  exact List.isSuffixOf_iff_suffix

/-- C6 as stated fails: a parsed base URL whose path is `//` (as for
`https://git.example//`) already ends in `/`, is left alone, and still ends in
`//` after the step. -/
theorem trailing_slash_not_collapsed :
    (ensureTrailingSlash { Scheme := "https", Host := "git.example", Path := "//" }).Path = "//" ∧
      HasSuffix (ensureTrailingSlash { Scheme := "https", Host := "git.example", Path := "//" }).Path
        "//" = true := by
  decide

theorem ensureTrailingSlash_of_suffix (rootURL : URL) (h : HasSuffix rootURL.Path "/" = true) :
    ensureTrailingSlash rootURL = rootURL := by
  unfold ensureTrailingSlash
  rw [h]
  rfl

theorem ensureTrailingSlash_of_not_suffix (rootURL : URL)
    (h : HasSuffix rootURL.Path "/" = false) :
    ensureTrailingSlash rootURL =
      { rootURL with Path := rootURL.Path ++ "/", RawPath := rootURL.RawPath ++ "/" } := by
  unfold ensureTrailingSlash
  rw [h]
  rfl

/-- C6, amended. After the step the path ends in `/`; a URL whose path already
ends in `/` is unchanged, otherwise exactly one `/` is appended to `Path` and
`RawPath`; so the result ends in `//` exactly when the supplied path did. -/
theorem ensureTrailingSlash_spec (rootURL : URL) :
    HasSuffix (ensureTrailingSlash rootURL).Path "/" = true ∧
      (HasSuffix rootURL.Path "/" = true → ensureTrailingSlash rootURL = rootURL) ∧
      (HasSuffix rootURL.Path "/" = false →
        ensureTrailingSlash rootURL =
          { rootURL with Path := rootURL.Path ++ "/", RawPath := rootURL.RawPath ++ "/" }) ∧
      (HasSuffix (ensureTrailingSlash rootURL).Path "//" = true ↔
        HasSuffix rootURL.Path "//" = true) := by
  refine ⟨?_, ensureTrailingSlash_of_suffix rootURL, ensureTrailingSlash_of_not_suffix rootURL, ?_⟩
  · by_cases hs : HasSuffix rootURL.Path "/" = true
    · rw [ensureTrailingSlash_of_suffix rootURL hs]
      exact hs
    · rw [ensureTrailingSlash_of_not_suffix rootURL (by simpa using hs), hasSuffix_iff]
      exact ⟨rootURL.Path.data, rfl⟩
  · by_cases hs : HasSuffix rootURL.Path "/" = true
    · rw [ensureTrailingSlash_of_suffix rootURL hs]
    · rw [ensureTrailingSlash_of_not_suffix rootURL (by simpa using hs)]
      have hns : ¬ ['/'] <:+ rootURL.Path.data := by
        intro h
        exact hs ((hasSuffix_iff _ _).mpr h)
      have hd1 : ("/" : String).data = ['/'] := rfl
      rw [hasSuffix_iff, hasSuffix_iff]
      dsimp only
      rw [String.data_append, hd1]
      constructor
      · rintro ⟨pre, hpre⟩
        exfalso
        apply hns
        have h2 : (pre ++ ['/']) ++ ['/'] = rootURL.Path.data ++ ['/'] := by
          rw [← hpre]
          simp
        exact ⟨pre, List.append_cancel_right h2⟩
      · rintro ⟨pre, hpre⟩
        exfalso
        apply hns
        exact ⟨pre ++ ['/'], by rw [← hpre]; simp⟩

/-! ## The trace of a run -/

theorem succeeded_not_failing (env : Env) (before : List Request) (r : Request)
    (h : succeeded env before r = true) : failing env before r = false := by
  unfold succeeded at h
  unfold failing
  cases hdo : env.clientDo before r with
  | error e => rfl
  | ok res =>
    rw [hdo] at h
    simp only [decide_eq_true_eq] at h
    simp only [decide_eq_false_iff_not]
    omega

theorem req_ok_succeeded (env : Env) (token method : String) (urAL : URL) (w : World)
    (body : String) (h : (req env token method urAL w).2 = Except.ok body) :
    succeeded env w.requests (mkRequest token method urAL) = true := by
  unfold req at h
  unfold succeeded
  cases hdo : env.clientDo w.requests (mkRequest token method urAL) with
  | error e => rw [hdo] at h; cases h
  | ok res =>
    rw [hdo] at h
    dsimp only at h
    by_cases hs : res.StatusCode > 299
    · rw [if_pos hs] at h; cases h
    · simp only [decide_eq_true_eq]
      omega

theorem getJson_ok_succeeded (env : Env) (token : String) (urAL : URL) (w : World)
    (rs : List glRunner) (h : (getJson env token urAL w).2 = Except.ok rs) :
    succeeded env w.requests (mkRequest token "GET" urAL) = true := by
  unfold getJson at h
  rcases hr : req env token "GET" urAL w with ⟨w1, e | body⟩
  · rw [hr] at h
    cases h
  · exact req_ok_succeeded env token "GET" urAL w body (by rw [hr])

theorem eachInTurn_nil (p : List Request → Request → Bool) (before : List Request) :
    eachInTurn p before [] = true := rfl

theorem eachInTurn_cons (p : List Request → Request → Bool) (before : List Request)
    (r : Request) (rest : List Request) :
    eachInTurn p before (r :: rest) = (p before r && eachInTurn p (before ++ [r]) rest) := rfl

theorem eachInTurn_append (p : List Request → Request → Bool) :
    ∀ (xs before ys : List Request),
      eachInTurn p before (xs ++ ys) =
        (eachInTurn p before xs && eachInTurn p (before ++ xs) ys) := by
  intro xs
  induction xs with
  | nil =>
    intro before ys
    simp [eachInTurn_nil]
  | cons x xs ih =>
    intro before ys
    rw [List.cons_append, eachInTurn_cons, eachInTurn_cons, ih, Bool.and_assoc,
      List.append_assoc, List.singleton_append]

/-- A request of a list whose requests each satisfied `p` in turn satisfied `p`
after the requests before it. -/
theorem eachInTurn_get (p : List Request → Request → Bool) :
    ∀ (rs before : List Request) (i : Nat) (r : Request),
      eachInTurn p before rs = true → rs[i]? = some r → p (before ++ rs.take i) r = true := by
  intro rs
  induction rs with
  | nil =>
    intro before i r _ hr
    cases hr
  | cons x xs ih =>
    intro before i r h hr
    rw [eachInTurn_cons, Bool.and_eq_true] at h
    cases i with
    | zero =>
      simp only [List.getElem?_cons_zero, Option.some.injEq] at hr
      subst hr
      simpa using h.1
    | succ i =>
      simp only [List.getElem?_cons_succ] at hr
      have h2 := ih (before ++ [x]) i r h.2 hr
      simpa using h2

theorem notRemoved_req (env : Env) (token method : String) (urAL : URL) (w : World) :
    notRemoved (req env token method urAL w).1.logs = notRemoved w.logs := by
  obtain ⟨more, hlogs, hmore⟩ := req_logs env token method urAL w
  have hnil : more.filter (fun e => decide (e.msg = "Not removed runner")) = [] := by
    rw [List.filter_eq_nil_iff]
    intro e he
    rw [(hmore e he).2]
    decide
  unfold notRemoved
  rw [hlogs, List.filter_append, List.filter_cons, hnil]
  simp [requestLog]

theorem collect_zero (env : Env) (token : String) (rgx : String → Bool) (runnersURL : URL)
    (page : Nat) (m : List (String × Nat)) (w : World) :
    collect env token rgx runnersURL 0 page m w = (w, Except.error Exit.outOfFuel) := rfl

theorem collect_succ (env : Env) (token : String) (rgx : String → Bool) (runnersURL : URL)
    (fuel page : Nat) (m : List (String × Nat)) (w : World) :
    collect env token rgx runnersURL (fuel + 1) page m w =
      match getJson env token (pageURL runnersURL page) w with
      | (w1, Except.error err) =>
        ((assertFail w1 err).world, Except.error (assertFail w1 err).exit)
      | (w1, Except.ok runners) =>
        if runners.length < 1 then (w1, Except.ok m)
        else
          collect env token rgx runnersURL fuel ((page + 1) % 2 ^ 64)
            (addMatches rgx m runners) w1 := rfl

/-- The page loop only issues `GET` requests and logs no dry-run record. It ends
either with every request answered with a status of at most 299, or with exit
code 1 right after the first request that was not. -/
theorem collect_trace (env : Env) (token : String) (rgx : String → Bool) (runnersURL : URL) :
    ∀ (fuel page : Nat) (m : List (String × Nat)) (w : World),
      ∃ gets, (collect env token rgx runnersURL fuel page m w).1.requests = w.requests ++ gets ∧
        (∀ r ∈ gets, r.Method = "GET") ∧
        notRemoved (collect env token rgx runnersURL fuel page m w).1.logs = notRemoved w.logs ∧
        ((((∃ m', (collect env token rgx runnersURL fuel page m w).2 = Except.ok m') ∨
            (collect env token rgx runnersURL fuel page m w).2 = Except.error Exit.outOfFuel) ∧
            eachInTurn (succeeded env) w.requests gets = true) ∨
          ((collect env token rgx runnersURL fuel page m w).2 = Except.error (Exit.code 1) ∧
            ∃ pre last, gets = pre ++ [last] ∧
              eachInTurn (succeeded env) w.requests pre = true)) := by
  intro fuel
  induction fuel with
  | zero =>
    intro page m w
    rw [collect_zero]
    exact ⟨[], by simp, by simp, rfl, Or.inl ⟨Or.inr rfl, rfl⟩⟩
  | succ fuel ih =>
    intro page m w
    rw [collect_succ]
    have hw := getJson_world env token (pageURL runnersURL page) w
    have hrq := req_requests env token "GET" (pageURL runnersURL page) w
    have hlg := notRemoved_req env token "GET" (pageURL runnersURL page) w
    have hone : ∀ r ∈ [mkRequest token "GET" (pageURL runnersURL page)], r.Method = "GET" := by
      intro r hr
      simp only [List.mem_singleton] at hr
      subst hr
      rfl
    rcases hg : getJson env token (pageURL runnersURL page) w with ⟨w1, err | runners⟩
    · rw [hg] at hw
      dsimp only at hw
      subst hw
      dsimp only
      exact ⟨[mkRequest token "GET" (pageURL runnersURL page)], hrq, hone, hlg,
        Or.inr ⟨rfl, [], _, rfl, rfl⟩⟩
    · have hok := getJson_ok_succeeded env token (pageURL runnersURL page) w runners (by rw [hg])
      rw [hg] at hw
      dsimp only at hw
      subst hw
      dsimp only
      split
      · refine ⟨[mkRequest token "GET" (pageURL runnersURL page)], hrq, hone, hlg,
          Or.inl ⟨Or.inl ⟨m, rfl⟩, ?_⟩⟩
        rw [eachInTurn_cons, hok, eachInTurn_nil]
        rfl
      · obtain ⟨gets, h1, h2, h3, h4⟩ := ih ((page + 1) % 2 ^ 64) (addMatches rgx m runners)
          (req env token "GET" (pageURL runnersURL page) w).1
        rw [hrq] at h4
        refine ⟨mkRequest token "GET" (pageURL runnersURL page) :: gets, ?_, ?_, ?_, ?_⟩
        · rw [h1, hrq]
          simp
        · intro r hr
          rcases List.mem_cons.mp hr with hr | hr
          · subst hr
            rfl
          · exact h2 r hr
        · rw [h3, hlg]
        · rcases h4 with ⟨hres, hall⟩ | ⟨hres, pre, last, hpre, hall⟩
          · refine Or.inl ⟨hres, ?_⟩
            rw [eachInTurn_cons, hok, hall]
            rfl
          · refine Or.inr ⟨hres, mkRequest token "GET" (pageURL runnersURL page) :: pre, last,
              by rw [hpre]; rfl, ?_⟩
            rw [eachInTurn_cons, hok, hall]
            rfl

theorem deleteAll_nil (env : Env) (token : String) (runnersURL : URL) (w : World) :
    deleteAll env token runnersURL [] w = { world := w, exit := Exit.code 0 } := rfl

theorem deleteAll_cons (env : Env) (token : String) (runnersURL : URL) (desc : String) (id : Nat)
    (rest : List (String × Nat)) (w : World) :
    deleteAll env token runnersURL ((desc, id) :: rest) w =
      match parseURL env (Nat.repr id) with
      | Except.error errURL => { world := w, exit := Exit.panic errURL }
      | Except.ok ref =>
        match req env token "DELETE" (env.resolveReference runnersURL ref) w with
        | (w1, Except.error errReq) => assertFail w1 errReq
        | (w1, Except.ok _) => deleteAll env token runnersURL rest w1 := rfl

/-- The delete loop only issues `DELETE` requests and logs no dry-run record. It
ends either with every request answered with a status of at most 299, or with
exit code 1 right after the first request that was not. -/
theorem deleteAll_trace (env : Env) (token : String) (runnersURL : URL) :
    ∀ (es : List (String × Nat)) (w : World),
      ∃ dels, (deleteAll env token runnersURL es w).world.requests = w.requests ++ dels ∧
        (∀ r ∈ dels, r.Method = "DELETE") ∧
        notRemoved (deleteAll env token runnersURL es w).world.logs = notRemoved w.logs ∧
        (deleteAll env token runnersURL es w).exit ≠ Exit.outOfFuel ∧
        (eachInTurn (succeeded env) w.requests dels = true ∨
          ((deleteAll env token runnersURL es w).exit = Exit.code 1 ∧
            ∃ pre last, dels = pre ++ [last] ∧
              eachInTurn (succeeded env) w.requests pre = true)) := by
  intro es
  induction es with
  | nil =>
    intro w
    rw [deleteAll_nil]
    exact ⟨[], by simp, by simp, rfl, by simp, Or.inl rfl⟩
  | cons e rest ih =>
    intro w
    obtain ⟨desc, id⟩ := e
    rw [deleteAll_cons]
    cases hp : parseURL env (Nat.repr id) with
    | error errURL =>
      exact ⟨[], by simp, by simp, rfl, by simp, Or.inl rfl⟩
    | ok ref =>
      dsimp only
      have hrq := req_requests env token "DELETE" (env.resolveReference runnersURL ref) w
      have hlg := notRemoved_req env token "DELETE" (env.resolveReference runnersURL ref) w
      have hone : ∀ r ∈ [mkRequest token "DELETE" (env.resolveReference runnersURL ref)],
          r.Method = "DELETE" := by
        intro r hr
        simp only [List.mem_singleton] at hr
        subst hr
        rfl
      rcases hr : req env token "DELETE" (env.resolveReference runnersURL ref) w with
        ⟨w1, errReq | body⟩
      · rw [hr] at hrq hlg
        dsimp only at hrq hlg
        dsimp only
        exact ⟨[mkRequest token "DELETE" (env.resolveReference runnersURL ref)], hrq, hone, hlg,
          by simp [assertFail], Or.inr ⟨rfl, [], _, rfl, rfl⟩⟩
      · have hok := req_ok_succeeded env token "DELETE" (env.resolveReference runnersURL ref) w
          body (by rw [hr])
        rw [hr] at hrq hlg
        dsimp only at hrq hlg
        dsimp only
        obtain ⟨dels, h1, h2, h3, h4, h5⟩ := ih w1
        rw [hrq] at h5
        refine ⟨mkRequest token "DELETE" (env.resolveReference runnersURL ref) :: dels,
          ?_, ?_, ?_, h4, ?_⟩
        · rw [h1, hrq]
          simp
        · intro r hr
          rcases List.mem_cons.mp hr with hr | hr
          · subst hr
            rfl
          · exact h2 r hr
        · rw [h3, hlg]
        · rcases h5 with hall | ⟨hres, pre, last, hpre, hall⟩
          · refine Or.inl ?_
            rw [eachInTurn_cons, hok, hall]
            rfl
          · refine Or.inr ⟨hres,
              mkRequest token "DELETE" (env.resolveReference runnersURL ref) :: pre, last,
              by rw [hpre]; rfl, ?_⟩
            rw [eachInTurn_cons, hok, hall]
            rfl

/-- What `main` does once the configuration is valid and the collection URL is
built. -/
theorem main_of_valid (env : Env) (a : Args) (fuel : Nat) (rootURL ref : URL)
    (rgx : String → Bool) (hcfg : validate env a = Except.ok (rootURL, rgx))
    (href : parseURL env "api/v4/runners/" = Except.ok ref) :
    main env a fuel =
      match collect env a.TOKEN rgx (env.resolveReference rootURL ref) fuel 1 [] {} with
      | (w, Except.error exit) => { world := w, exit := exit }
      | (w, Except.ok allRunners) =>
        dispatch env a.TOKEN a.force (env.resolveReference rootURL ref) allRunners w := by
  unfold main
  rw [hcfg]
  dsimp only
  rw [href]

/-- The requests of a run are page fetches followed by deletions. Either all of
them were answered with a status of at most 299, or the run ended with exit
code 1 right after the first one that was not, without any dry-run record. -/
theorem main_trace (env : Env) (a : Args) (fuel : Nat) :
    ∃ gets dels, (main env a fuel).world.requests = gets ++ dels ∧
      (∀ r ∈ gets, r.Method = "GET") ∧ (∀ r ∈ dels, r.Method = "DELETE") ∧
      (eachInTurn (succeeded env) [] (gets ++ dels) = true ∨
        ((main env a fuel).exit = Exit.code 1 ∧ notRemoved (main env a fuel).world.logs = [] ∧
          ∃ pre last, gets ++ dels = pre ++ [last] ∧
            eachInTurn (succeeded env) [] pre = true)) := by
  cases hv : validate env a with
  | error run =>
    have hr := validate_error_run env a run hv
    have hm : main env a fuel = run := by
      unfold main
      rw [hv]
    rw [hm]
    exact ⟨[], [], hr.2.1, by simp, by simp, Or.inl rfl⟩
  | ok cfg =>
    obtain ⟨rootURL, rgx⟩ := cfg
    cases hp : parseURL env "api/v4/runners/" with
    | error errURL =>
      have hm : main env a fuel = { world := {}, exit := Exit.panic errURL } := by
        unfold main
        rw [hv]
        dsimp only
        rw [hp]
      rw [hm]
      exact ⟨[], [], rfl, by simp, by simp, Or.inl rfl⟩
    | ok ref =>
      rw [main_of_valid env a fuel rootURL ref rgx hv hp]
      obtain ⟨gets, h1, h2, h3, h4⟩ :=
        collect_trace env a.TOKEN rgx (env.resolveReference rootURL ref) fuel 1 [] {}
      have hnr : notRemoved ({} : World).logs = [] := rfl
      have hrq : ({} : World).requests ++ gets = gets := rfl
      have hrq0 : ({} : World).requests = [] := rfl
      rw [hnr] at h3
      rw [hrq] at h1
      rw [hrq0] at h4
      rcases hc : collect env a.TOKEN rgx (env.resolveReference rootURL ref) fuel 1 [] {} with
        ⟨w, exit | allRunners⟩
      · rw [hc] at h1 h3 h4
        dsimp only at h1 h3 h4 ⊢
        refine ⟨gets, [], by simpa using h1, h2, by simp, ?_⟩
        rw [List.append_nil]
        rcases h4 with ⟨_, hall⟩ | ⟨hres, pre, last, hpre, hall⟩
        · exact Or.inl hall
        · injection hres with hres
          subst hres
          exact Or.inr ⟨rfl, h3, pre, last, hpre, hall⟩
      · rw [hc] at h1 h3 h4
        dsimp only at h1 h3 h4 ⊢
        have hgets : eachInTurn (succeeded env) [] gets = true := by
          rcases h4 with ⟨_, hall⟩ | ⟨hres, _⟩
          · exact hall
          · cases hres
        unfold dispatch
        cases a.force with
        | false =>
          refine ⟨gets, [], by simpa [reportAll] using h1, h2, by simp, Or.inl ?_⟩
          rw [List.append_nil]
          exact hgets
        | true =>
          simp only [if_true]
          obtain ⟨dels, d1, d2, d3, _, d5⟩ := deleteAll_trace env a.TOKEN
            { env.resolveReference rootURL ref with RawQuery := "" }
            (env.rangeOrder allRunners).1 w
          rw [h1] at d5
          refine ⟨gets, dels, by rw [d1, h1], h2, d2, ?_⟩
          rcases d5 with hall | ⟨hres, pre, last, hpre, hall⟩
          · refine Or.inl ?_
            rw [eachInTurn_append, hgets, List.nil_append, hall]
            rfl
          · refine Or.inr ⟨hres, by rw [d3, h3], gets ++ pre, last, by rw [hpre]; simp, ?_⟩
            rw [eachInTurn_append, hgets, List.nil_append, hall]
            rfl

/-! ## C5: a failed request ends the run -/

theorem deletes_eq_nil_of_get (gets : List Request) (h : ∀ r ∈ gets, r.Method = "GET") :
    deletes gets = [] := by
  unfold deletes
  rw [List.filter_eq_nil_iff]
  intro r hr
  rw [h r hr]
  decide

/-- C5. If some request of a run (a page fetch or a `DELETE`) is answered with a
status code above 299, the run ends with exit code 1 and that request is its
last one; every earlier request was answered with a status of at most 299 and
stays issued, the requests are only `GET`s and `DELETE`s, and when the failed
request is a page fetch there is no `DELETE` and no dry-run record at all.
Conversely `req` returns the outcome of reading the body whenever the status is
at most 299. The answer to a request is the one the server gives after the
requests issued before it. -/
theorem failed_status_ends_run (env : Env) (a : Args) (fuel i : Nat) (r : Request)
    (hr : (main env a fuel).world.requests[i]? = some r)
    (hfail : failing env ((main env a fuel).world.requests.take i) r = true) :
    (main env a fuel).exit = Exit.code 1 ∧
      (main env a fuel).world.requests.length = i + 1 ∧
      (∀ j r', j < i → (main env a fuel).world.requests[j]? = some r' →
        succeeded env ((main env a fuel).world.requests.take j) r' = true) ∧
      (∀ r' ∈ (main env a fuel).world.requests, r'.Method = "GET" ∨ r'.Method = "DELETE") ∧
      (r.Method = "GET" →
        deletes (main env a fuel).world.requests = [] ∧
          notRemoved (main env a fuel).world.logs = []) ∧
      (∀ (token method : String) (urAL : URL) (w : World) (res : Response),
        env.clientDo w.requests (mkRequest token method urAL) = Except.ok res →
          res.StatusCode ≤ 299 → (req env token method urAL w).2 = res.Body) := by
  obtain ⟨gets, dels, hreq, hg, hd, hcase⟩ := main_trace env a fuel
  have hnot : ¬ succeeded env ((main env a fuel).world.requests.take i) r = true := by
    intro hs
    rw [succeeded_not_failing env _ r hs] at hfail
    cases hfail
  have hmeth : ∀ r' ∈ (main env a fuel).world.requests,
      r'.Method = "GET" ∨ r'.Method = "DELETE" := by
    intro r' hr'
    rw [hreq] at hr'
    rcases List.mem_append.mp hr' with h | h
    · exact Or.inl (hg r' h)
    · exact Or.inr (hd r' h)
  have hconv : ∀ (token method : String) (urAL : URL) (w : World) (res : Response),
      env.clientDo w.requests (mkRequest token method urAL) = Except.ok res →
        res.StatusCode ≤ 299 → (req env token method urAL w).2 = res.Body :=
    fun token method urAL w res h1 h2 => req_result_of_status_le env token method urAL w res h1 h2
  rcases hcase with hall | ⟨hexit, hlogs, pre, last, hpre, hall⟩
  · exfalso
    apply hnot
    rw [← hreq] at hall
    have h := eachInTurn_get (succeeded env) _ [] i r hall hr
    rw [List.nil_append] at h
    exact h
  · have hreq2 : (main env a fuel).world.requests = pre ++ [last] := by rw [hreq, hpre]
    have hbefore : ∀ j r', j < pre.length →
        (main env a fuel).world.requests[j]? = some r' →
          succeeded env ((main env a fuel).world.requests.take j) r' = true := by
      intro j r' hj hjr
      rw [hreq2, List.getElem?_append_left hj] at hjr
      have h := eachInTurn_get (succeeded env) pre [] j r' hall hjr
      rw [List.nil_append] at h
      rw [hreq2, List.take_append_of_le_length (by omega)]
      exact h
    have hi : i = pre.length := by
      rcases Nat.lt_trichotomy i pre.length with h | h | h
      · exact absurd (hbefore i r h hr) hnot
      · exact h
      · exfalso
        rw [hreq2, List.getElem?_eq_none (by simp; omega)] at hr
        cases hr
    have hlast : r = last := by
      rw [hreq2, hi, List.getElem?_concat_length] at hr
      injection hr with hr
      exact hr.symm
    refine ⟨hexit, by rw [hreq2, hi]; simp, ?_, hmeth, ?_, hconv⟩
    · intro j r' hj hjr
      exact hbefore j r' (by omega) hjr
    · intro hget
      refine ⟨?_, hlogs⟩
      have hdn : dels = [] := by
        rcases List.eq_nil_or_concat dels with h | ⟨d, x, h⟩
        · exact h
        · exfalso
          rw [h, List.concat_eq_append, ← List.append_assoc] at hpre
          have hx := List.append_inj_right' hpre rfl
          have hxl : x = last := by simpa using hx
          have hxd : x.Method = "DELETE" := hd x (by rw [h]; simp)
          rw [hxl, ← hlast, hget] at hxd
          revert hxd
          decide
      rw [hreq, hdn, List.append_nil]
      exact deletes_eq_nil_of_get gets hg

/-- C5 on the example scenario with a server that refuses every `DELETE`: the
third request, the `DELETE` of runner 5, gets status 404 and is the last one. -/
theorem failed_status_ends_run_witness :
    (main (mockEnv examplePages deleteFails) (exampleArgs true) 2).world.requests[2]? =
        some (mkRequest "s3cret" "DELETE" { exampleRunnersURL with Path := "/api/v4/runners/5" }) ∧
      failing (mockEnv examplePages deleteFails)
        ((main (mockEnv examplePages deleteFails) (exampleArgs true) 2).world.requests.take 2)
        (mkRequest "s3cret" "DELETE" { exampleRunnersURL with Path := "/api/v4/runners/5" }) = true ∧
      (main (mockEnv examplePages deleteFails) (exampleArgs true) 2).exit = Exit.code 1 ∧
      (main (mockEnv examplePages deleteFails) (exampleArgs true) 2).world.requests.length = 3 :=
  ⟨by decide, by decide,
    (failed_status_ends_run (mockEnv examplePages deleteFails) (exampleArgs true) 2 2
      (mkRequest "s3cret" "DELETE" { exampleRunnersURL with Path := "/api/v4/runners/5" })
      (by decide) (by decide)).1,
    (failed_status_ends_run (mockEnv examplePages deleteFails) (exampleArgs true) 2 2
      (mkRequest "s3cret" "DELETE" { exampleRunnersURL with Path := "/api/v4/runners/5" })
      (by decide) (by decide)).2.1⟩

/-! ## C1: pagination stops at the first empty page -/

theorem addMatches_append (rgx : String → Bool) (m : List (String × Nat))
    (xs ys : List glRunner) :
    addMatches rgx m (xs ++ ys) = addMatches rgx (addMatches rgx m xs) ys := by
  unfold addMatches
  rw [List.foldl_append]

theorem pageList_of_ok (env : Env) (token : String) (runnersURL : URL) (page : Nat)
    (rs : List glRunner) (h : pageRecords env token runnersURL page = Except.ok rs) :
    pageList env token runnersURL page = rs := by
  unfold pageList
  rw [h]

theorem pageRequests_succ (token : String) (runnersURL : URL) (k : Nat) :
    pageRequests token runnersURL (k + 1) =
      pageRequests token runnersURL k ++ [mkRequest token "GET" (pageURL runnersURL (k + 1))] := by
  unfold pageRequests
  rw [List.range_succ, List.map_append]
  rfl

/-- The page loop on a server whose pages `page .. page+n-1` are non-empty and
whose page `page+n` is empty, entered at page `page` after pages `1..page-1`
were fetched: it fetches exactly these `n+1` pages and returns the map with the
matches of the non-empty ones folded in. -/
theorem collect_pages (env : Env) (token : String) (rgx : String → Bool) (runnersURL : URL) :
    ∀ (n fuel page : Nat) (m : List (String × Nat)) (w : World),
      1 ≤ page → w.requests = pageRequests token runnersURL (page - 1) →
      page + n < 2 ^ 64 → n < fuel →
      (∀ i, page ≤ i → i < page + n →
        ∃ rs, pageRecords env token runnersURL i = Except.ok rs ∧ rs ≠ []) →
      pageRecords env token runnersURL (page + n) = Except.ok [] →
      (collect env token rgx runnersURL fuel page m w).2 =
          Except.ok (addMatches rgx m (recordsFrom env token runnersURL page n)) ∧
        (collect env token rgx runnersURL fuel page m w).1.requests =
          pageRequests token runnersURL (page + n) ∧
        notRemoved (collect env token rgx runnersURL fuel page m w).1.logs =
          notRemoved w.logs := by
  intro n
  induction n with
  | zero =>
    intro fuel page m w hpage hwreq _ hfuel _ hempty
    obtain ⟨f, rfl⟩ : ∃ f, fuel = f + 1 := ⟨fuel - 1, by omega⟩
    rw [collect_succ]
    have hw := getJson_world env token (pageURL runnersURL page) w
    have hrq := req_requests env token "GET" (pageURL runnersURL page) w
    have hlg := notRemoved_req env token "GET" (pageURL runnersURL page) w
    have hres := getJson_snd_congr env token (pageURL runnersURL page) w
      { requests := pageRequests token runnersURL (page - 1) } hwreq
    rcases hg : getJson env token (pageURL runnersURL page) w with ⟨w1, res⟩
    rw [hg] at hw hres
    dsimp only at hw hres
    have hres2 : res = Except.ok [] := by
      rw [hres]
      exact hempty
    subst hres2
    subst hw
    dsimp only
    rw [if_pos (by simp)]
    refine ⟨rfl, ?_, hlg⟩
    rw [hrq, hwreq]
    obtain ⟨q, rfl⟩ : ∃ q, page = q + 1 := ⟨page - 1, by omega⟩
    rw [Nat.add_zero, Nat.add_sub_cancel, pageRequests_succ]
  | succ n ih =>
    intro fuel page m w hpage hwreq hlt hfuel hfull hempty
    obtain ⟨f, rfl⟩ : ∃ f, fuel = f + 1 := ⟨fuel - 1, by omega⟩
    obtain ⟨rs, hrs, hne⟩ := hfull page (Nat.le_refl page) (by omega)
    rw [collect_succ]
    have hw := getJson_world env token (pageURL runnersURL page) w
    have hrq := req_requests env token "GET" (pageURL runnersURL page) w
    have hlg := notRemoved_req env token "GET" (pageURL runnersURL page) w
    have hres := getJson_snd_congr env token (pageURL runnersURL page) w
      { requests := pageRequests token runnersURL (page - 1) } hwreq
    rcases hg : getJson env token (pageURL runnersURL page) w with ⟨w1, res⟩
    rw [hg] at hw hres
    dsimp only at hw hres
    have hres2 : res = Except.ok rs := by
      rw [hres]
      exact hrs
    subst hres2
    subst hw
    dsimp only
    have hlen : ¬ rs.length < 1 := by
      cases rs with
      | nil => exact absurd rfl hne
      | cons x xs => simp
    rw [if_neg hlen, Nat.mod_eq_of_lt (by omega)]
    have hnext : (req env token "GET" (pageURL runnersURL page) w).1.requests =
        pageRequests token runnersURL (page + 1 - 1) := by
      rw [hrq, hwreq]
      obtain ⟨q, rfl⟩ : ∃ q, page = q + 1 := ⟨page - 1, by omega⟩
      rw [Nat.add_sub_cancel, Nat.add_sub_cancel, pageRequests_succ]
    obtain ⟨h1, h2, h3⟩ := ih f (page + 1) (addMatches rgx m rs)
      (req env token "GET" (pageURL runnersURL page) w).1 (by omega) hnext (by omega) (by omega)
      (fun i hi1 hi2 => hfull i (by omega) (by omega))
      (by rw [show page + 1 + n = page + (n + 1) by omega]; exact hempty)
    refine ⟨?_, ?_, ?_⟩
    · rw [h1]
      show _ = Except.ok (addMatches rgx m
        (pageList env token runnersURL page ++ recordsFrom env token runnersURL (page + 1) n))
      rw [addMatches_append, pageList_of_ok env token runnersURL page rs hrs]
    · rw [h2, show page + 1 + n = page + (n + 1) by omega]
    · rw [h3, hlg]

theorem fetches_pageRequests (token : String) (runnersURL : URL) (k : Nat) :
    fetches (pageRequests token runnersURL k) = pageRequests token runnersURL k := by
  unfold fetches
  rw [List.filter_eq_self]
  intro r hr
  unfold pageRequests at hr
  obtain ⟨i, _, rfl⟩ := List.mem_map.mp hr
  rfl

theorem fetches_eq_nil_of_delete (dels : List Request) (h : ∀ r ∈ dels, r.Method = "DELETE") :
    fetches dels = [] := by
  unfold fetches
  rw [List.filter_eq_nil_iff]
  intro r hr
  rw [h r hr]
  decide

/-- The page loop of `main` on a server whose first empty page is page `k`. -/
theorem collect_first_empty (env : Env) (token : String) (rgx : String → Bool)
    (runnersURL : URL) (k fuel : Nat) (hk : 1 ≤ k) (hk64 : k < 2 ^ 64)
    (hfull : ∀ i, 1 ≤ i → i < k →
      ∃ rs, pageRecords env token runnersURL i = Except.ok rs ∧ rs ≠ [])
    (hempty : pageRecords env token runnersURL k = Except.ok [])
    (hfuel : k ≤ fuel) :
    ∃ w, collect env token rgx runnersURL fuel 1 [] {} =
        (w, Except.ok (addMatches rgx [] (fetchedRecords env token runnersURL (k - 1)))) ∧
      w.requests = pageRequests token runnersURL k ∧ notRemoved w.logs = [] := by
  obtain ⟨n, rfl⟩ : ∃ n, k = 1 + n := ⟨k - 1, by omega⟩
  obtain ⟨h1, h2, h3⟩ := collect_pages env token rgx runnersURL n fuel 1 [] {} (Nat.le_refl 1) rfl
    hk64 (by omega) (fun i hi1 hi2 => hfull i hi1 hi2) hempty
  refine ⟨(collect env token rgx runnersURL fuel 1 [] {}).1, ?_, h2, ?_⟩
  · rw [show 1 + n - 1 = n by omega]
    exact Prod.ext rfl h1
  · rw [h3]
    rfl

/-- C1. On a valid configuration and a server whose pages `1..k-1` decode to
non-empty lists and whose page `k` decodes to the empty list (`k` a page number
of the loop's type `uint64`), `main` with at least `k` units of fuel finishes;
its requests are the `GET`s for pages `1, 2, ..., k` in that order followed only
by `DELETE`s (none in a dry run), so exactly `k` `GET`s are issued and page `k+1`
is never requested, whatever the server holds there. -/
theorem pagination_stops_at_first_empty_page (env : Env) (a : Args) (rootURL ref : URL)
    (rgx : String → Bool) (k fuel : Nat)
    (hcfg : validate env a = Except.ok (rootURL, rgx))
    (href : parseURL env "api/v4/runners/" = Except.ok ref)
    (hk : 1 ≤ k) (hk64 : k < 2 ^ 64)
    (hfull : ∀ i, 1 ≤ i → i < k →
      ∃ rs, pageRecords env a.TOKEN (env.resolveReference rootURL ref) i = Except.ok rs ∧ rs ≠ [])
    (hempty : pageRecords env a.TOKEN (env.resolveReference rootURL ref) k = Except.ok [])
    (hfuel : k ≤ fuel) :
    (main env a fuel).exit ≠ Exit.outOfFuel ∧
      fetches (main env a fuel).world.requests =
        pageRequests a.TOKEN (env.resolveReference rootURL ref) k ∧
      (fetches (main env a fuel).world.requests).length = k ∧
      ∃ dels, (main env a fuel).world.requests =
          pageRequests a.TOKEN (env.resolveReference rootURL ref) k ++ dels ∧
        (∀ r ∈ dels, r.Method = "DELETE") ∧ (a.force = false → dels = []) := by
  obtain ⟨w, hc, hw, _⟩ := collect_first_empty env a.TOKEN rgx (env.resolveReference rootURL ref)
    k fuel hk hk64 hfull hempty hfuel
  have hmain := main_of_valid env a fuel rootURL ref rgx hcfg href
  rw [hc] at hmain
  dsimp only at hmain
  have key : (main env a fuel).exit ≠ Exit.outOfFuel ∧
      ∃ dels, (main env a fuel).world.requests =
          pageRequests a.TOKEN (env.resolveReference rootURL ref) k ++ dels ∧
        (∀ r ∈ dels, r.Method = "DELETE") ∧ (a.force = false → dels = []) := by
    rw [hmain]
    unfold dispatch
    cases hf : a.force with
    | false =>
      exact ⟨by simp [reportAll], [], by simp [reportAll, hw], by simp, fun _ => rfl⟩
    | true =>
      simp only [if_true]
      obtain ⟨dels, d1, d2, _, d4, _⟩ := deleteAll_trace env a.TOKEN
        { env.resolveReference rootURL ref with RawQuery := "" }
        (env.rangeOrder (addMatches rgx []
          (fetchedRecords env a.TOKEN (env.resolveReference rootURL ref) (k - 1)))).1 w
      exact ⟨d4, dels, by rw [d1, hw], d2, fun h => by cases h⟩
  obtain ⟨hexit, dels, hreq, hdel, hdry⟩ := key
  have hf : fetches (main env a fuel).world.requests =
      pageRequests a.TOKEN (env.resolveReference rootURL ref) k := by
    rw [hreq]
    unfold fetches
    rw [List.filter_append]
    have h1 := fetches_pageRequests a.TOKEN (env.resolveReference rootURL ref) k
    have h2 := fetches_eq_nil_of_delete dels hdel
    unfold fetches at h1 h2
    rw [h1, h2, List.append_nil]
  refine ⟨hexit, hf, ?_, dels, hreq, hdel, hdry⟩
  rw [hf]
  simp [pageRequests]

/-- C1 on a server with pages non-empty, empty, non-empty: `k = 2`, and the run
issues the `GET`s for pages 1 and 2 only. -/
theorem pagination_stops_at_first_empty_page_witness :
    validate (mockEnv gapPages allOk) (exampleArgs false) =
        Except.ok ({ Scheme := "https", Host := "git.example", Path := "/" },
          fun s => ("^ci-" : String).data.tail.isPrefixOf s.data) ∧
      pageRecords (mockEnv gapPages allOk) "s3cret" exampleRunnersURL 1 =
        Except.ok [{ ID := 1, Description := "ci-a" }] ∧
      pageRecords (mockEnv gapPages allOk) "s3cret" exampleRunnersURL 2 = Except.ok [] ∧
      pageRecords (mockEnv gapPages allOk) "s3cret" exampleRunnersURL 3 =
        Except.ok [{ ID := 2, Description := "ci-b" }] ∧
      fetches (main (mockEnv gapPages allOk) (exampleArgs false) 5).world.requests =
        pageRequests "s3cret" exampleRunnersURL 2 ∧
      (fetches (main (mockEnv gapPages allOk) (exampleArgs false) 5).world.requests).length = 2 :=
  ⟨rfl, rfl, rfl, rfl,
    (pagination_stops_at_first_empty_page (mockEnv gapPages allOk) (exampleArgs false)
      { Scheme := "https", Host := "git.example", Path := "/" } { Path := "api/v4/runners/" }
      (fun s => ("^ci-" : String).data.tail.isPrefixOf s.data) 2 5 rfl rfl (by decide) (by decide)
      (fun i h1 h2 => by
        have hi : i = 1 := by omega
        subst hi
        exact ⟨[{ ID := 1, Description := "ci-a" }], rfl, by simp⟩)
      rfl (by decide)).2.1,
    (pagination_stops_at_first_empty_page (mockEnv gapPages allOk) (exampleArgs false)
      { Scheme := "https", Host := "git.example", Path := "/" } { Path := "api/v4/runners/" }
      (fun s => ("^ci-" : String).data.tail.isPrefixOf s.data) 2 5 rfl rfl (by decide) (by decide)
      (fun i h1 h2 => by
        have hi : i = 1 := by omega
        subst hi
        exact ⟨[{ ID := 1, Description := "ci-a" }], rfl, by simp⟩)
      rfl (by decide)).2.2.1⟩

/-! ## The map `allRunners` -/

theorem mapGet_mapSet (m : List (String × Nat)) (k : String) (v : Nat) (k' : String) :
    mapGet (mapSet m k v) k' = if k = k' then some v else mapGet m k' := by
  induction m with
  | nil =>
    simp only [mapSet, mapGet]
  | cons e rest ih =>
    obtain ⟨k0, v0⟩ := e
    by_cases h0 : k0 = k
    · subst h0
      by_cases h1 : k0 = k'
      · simp only [mapSet, mapGet, if_true, if_pos h1]
      · simp only [mapSet, mapGet, if_true, if_neg h1]
    · simp only [mapSet, mapGet, if_neg h0, ih]
      by_cases h1 : k0 = k'
      · subst h1
        have h2 : ¬ k = k0 := fun h => h0 h.symm
        simp only [if_true, if_neg h2]
      · simp only [if_neg h1]

theorem mem_keys_mapSet (m : List (String × Nat)) (k : String) (v : Nat) (x : String) :
    x ∈ (mapSet m k v).map Prod.fst ↔ x = k ∨ x ∈ m.map Prod.fst := by
  induction m with
  | nil => simp [mapSet]
  | cons e rest ih =>
    obtain ⟨k0, v0⟩ := e
    by_cases h0 : k0 = k
    · subst h0
      simp [mapSet]
    · simp only [mapSet, if_neg h0, List.map_cons, List.mem_cons, ih]
      tauto

theorem nodup_keys_mapSet (m : List (String × Nat)) (k : String) (v : Nat)
    (h : (m.map Prod.fst).Nodup) : ((mapSet m k v).map Prod.fst).Nodup := by
  induction m with
  | nil => simp [mapSet]
  | cons e rest ih =>
    obtain ⟨k0, v0⟩ := e
    rw [List.map_cons, List.nodup_cons] at h
    by_cases h0 : k0 = k
    · subst h0
      simp only [mapSet, if_true, List.map_cons, List.nodup_cons]
      exact h
    · simp only [mapSet, if_neg h0, List.map_cons, List.nodup_cons]
      refine ⟨?_, ih h.2⟩
      intro hmem
      rcases (mem_keys_mapSet rest k v k0).mp hmem with h1 | h1
      · exact h0 h1
      · exact h.1 h1

theorem mem_of_mapGet (m : List (String × Nat)) (k : String) (v : Nat)
    (h : mapGet m k = some v) : (k, v) ∈ m := by
  induction m with
  | nil => cases h
  | cons e rest ih =>
    obtain ⟨k0, v0⟩ := e
    by_cases h0 : k0 = k
    · subst h0
      simp only [mapGet, if_true] at h
      injection h with h
      subst h
      exact List.mem_cons_self _ _
    · simp only [mapGet, if_neg h0] at h
      exact List.mem_cons_of_mem _ (ih h)

theorem mapGet_of_mem (m : List (String × Nat)) (k : String) (v : Nat)
    (hnd : (m.map Prod.fst).Nodup) (h : (k, v) ∈ m) : mapGet m k = some v := by
  induction m with
  | nil => cases h
  | cons e rest ih =>
    obtain ⟨k0, v0⟩ := e
    rw [List.map_cons, List.nodup_cons] at hnd
    rcases List.mem_cons.mp h with h1 | h1
    · injection h1 with h2 h3
      subst h2
      subst h3
      simp only [mapGet, if_true]
    · have hk : k ∈ rest.map Prod.fst := List.mem_map.mpr ⟨(k, v), h1, rfl⟩
      have h0 : ¬ k0 = k := by
        intro h0
        subst h0
        exact hnd.1 hk
      simp only [mapGet, if_neg h0]
      exact ih hnd.2 h1

theorem mapGet_isSome_iff (m : List (String × Nat)) (k : String) :
    (mapGet m k).isSome = true ↔ k ∈ m.map Prod.fst := by
  induction m with
  | nil => simp [mapGet]
  | cons e rest ih =>
    obtain ⟨k0, v0⟩ := e
    by_cases h0 : k0 = k
    · subst h0
      simp [mapGet]
    · have h1 : ¬ k = k0 := fun h => h0 h.symm
      simp only [mapGet, if_neg h0, ih, List.map_cons, List.mem_cons, h1, false_or]

/-! ## Folding pages into the map -/

theorem addMatches_nil (rgx : String → Bool) (m : List (String × Nat)) :
    addMatches rgx m [] = m := rfl

theorem addMatches_cons (rgx : String → Bool) (m : List (String × Nat)) (r : glRunner)
    (rest : List glRunner) :
    addMatches rgx m (r :: rest) =
      addMatches rgx (if rgx r.Description then mapSet m r.Description r.ID else m) rest := rfl

theorem lastId_nil (d : String) : lastId [] d = none := rfl

theorem lastId_cons (r : glRunner) (rest : List glRunner) (d : String) :
    lastId (r :: rest) d =
      (lastId rest d).or (if r.Description = d then some r.ID else none) := by
  unfold lastId
  by_cases h : r.Description = d
  · rw [List.filter_cons_of_pos (by simpa using h), List.getLast?_cons, if_pos h]
    cases (rest.filter (fun r => decide (r.Description = d))).getLast? <;> rfl
  · rw [List.filter_cons_of_neg (by simpa using h), if_neg h]
    cases (rest.filter (fun r => decide (r.Description = d))).getLast? <;> rfl

theorem lastId_append (xs ys : List glRunner) (d : String) :
    lastId (xs ++ ys) d = (lastId ys d).or (lastId xs d) := by
  induction xs with
  | nil =>
    rw [List.nil_append, lastId_nil]
    cases lastId ys d <;> rfl
  | cons x xs ih =>
    rw [List.cons_append, lastId_cons, lastId_cons, ih]
    cases lastId ys d <;> cases lastId xs d <;> rfl

theorem lastId_eq_some (rs : List glRunner) (d : String) (id : Nat)
    (h : lastId rs d = some id) : ∃ r ∈ rs, r.Description = d ∧ r.ID = id := by
  unfold lastId at h
  cases hl : (rs.filter (fun r => decide (r.Description = d))).getLast? with
  | none => rw [hl] at h; cases h
  | some r =>
    rw [hl] at h
    injection h with h
    have hmem := List.mem_of_getLast?_eq_some hl
    rw [List.mem_filter] at hmem
    exact ⟨r, hmem.1, by simpa using hmem.2, h⟩

theorem lastId_isSome_of_mem (rs : List glRunner) (r : glRunner) (hr : r ∈ rs) :
    ∃ id, lastId rs r.Description = some id := by
  unfold lastId
  cases hl : (rs.filter (fun x => decide (x.Description = r.Description))).getLast? with
  | none =>
    rw [List.getLast?_eq_none_iff, List.filter_eq_nil_iff] at hl
    exact absurd (by simp) (hl r hr)
  | some x => exact ⟨x.ID, rfl⟩

/-- The map after folding in a list of records: a matching description maps to
the id of its last record in the list, or else to what it mapped to before. -/
theorem mapGet_addMatches (rgx : String → Bool) (rs : List glRunner) :
    ∀ (m : List (String × Nat)) (d : String),
      mapGet (addMatches rgx m rs) d =
        if rgx d then (lastId rs d).or (mapGet m d) else mapGet m d := by
  induction rs with
  | nil =>
    intro m d
    rw [addMatches_nil, lastId_nil]
    split <;> rfl
  | cons r rest ih =>
    intro m d
    rw [addMatches_cons, ih, lastId_cons]
    by_cases hd : rgx d = true
    · rw [if_pos hd, if_pos hd]
      by_cases hr : r.Description = d
      · rw [hr, if_pos hd, mapGet_mapSet, if_pos rfl, if_pos rfl]
        cases lastId rest d <;> rfl
      · rw [if_neg hr]
        have hstep : mapGet (if rgx r.Description = true then mapSet m r.Description r.ID else m) d =
            mapGet m d := by
          split
          · rw [mapGet_mapSet, if_neg hr]
          · rfl
        rw [hstep]
        cases lastId rest d <;> rfl
    · rw [if_neg hd, if_neg hd]
      split
      · rename_i hrd
        have hr : ¬ r.Description = d := by
          intro h
          apply hd
          rw [← h]
          exact hrd
        rw [mapGet_mapSet, if_neg hr]
      · rfl

theorem nodup_keys_addMatches (rgx : String → Bool) (rs : List glRunner) :
    ∀ (m : List (String × Nat)), (m.map Prod.fst).Nodup →
      ((addMatches rgx m rs).map Prod.fst).Nodup := by
  induction rs with
  | nil => intro m h; exact h
  | cons r rest ih =>
    intro m h
    rw [addMatches_cons]
    apply ih
    split
    · exact nodup_keys_mapSet m _ _ h
    · exact h

/-! ## The fetched records, page by page -/

theorem mem_recordsFrom (env : Env) (token : String) (runnersURL : URL) (r : glRunner) :
    ∀ (n first : Nat), r ∈ recordsFrom env token runnersURL first n ↔
      ∃ j, first ≤ j ∧ j < first + n ∧ r ∈ pageList env token runnersURL j := by
  intro n
  induction n with
  | zero =>
    intro first
    simp only [recordsFrom, List.not_mem_nil, false_iff]
    rintro ⟨j, h1, h2, _⟩
    omega
  | succ n ih =>
    intro first
    simp only [recordsFrom, List.mem_append, ih]
    constructor
    · rintro (h | ⟨j, h1, h2, h3⟩)
      · exact ⟨first, Nat.le_refl _, by omega, h⟩
      · exact ⟨j, by omega, by omega, h3⟩
    · rintro ⟨j, h1, h2, h3⟩
      by_cases hj : j = first
      · subst hj
        exact Or.inl h3
      · exact Or.inr ⟨j, by omega, by omega, h3⟩

theorem recordsFrom_add (env : Env) (token : String) (runnersURL : URL) :
    ∀ (x y first : Nat), recordsFrom env token runnersURL first (x + y) =
      recordsFrom env token runnersURL first x ++ recordsFrom env token runnersURL (first + x) y := by
  intro x
  induction x with
  | zero =>
    intro y first
    simp [recordsFrom]
  | succ x ih =>
    intro y first
    rw [show x + 1 + y = (x + y) + 1 by omega]
    simp only [recordsFrom, ih, List.append_assoc]
    rw [show first + 1 + x = first + (x + 1) by omega]

theorem mem_fetchedRecords (env : Env) (token : String) (runnersURL : URL) (r : glRunner)
    (n : Nat) : r ∈ fetchedRecords env token runnersURL n ↔
      ∃ j, 1 ≤ j ∧ j ≤ n ∧ r ∈ pageList env token runnersURL j := by
  unfold fetchedRecords
  rw [mem_recordsFrom]
  constructor
  · rintro ⟨j, h1, h2, h3⟩
    exact ⟨j, h1, by omega, h3⟩
  · rintro ⟨j, h1, h2, h3⟩
    exact ⟨j, h1, by omega, h3⟩

/-- A run of `main` on a valid configuration and a server whose first empty page
is page `k`: the page loop returns the matches of pages `1..k-1` and `main`
goes on to the dispatcher. -/
theorem main_first_empty (env : Env) (a : Args) (rootURL ref : URL)
    (rgx : String → Bool) (k fuel : Nat)
    (hcfg : validate env a = Except.ok (rootURL, rgx))
    (href : parseURL env "api/v4/runners/" = Except.ok ref)
    (hk : 1 ≤ k) (hk64 : k < 2 ^ 64)
    (hfull : ∀ i, 1 ≤ i → i < k →
      ∃ rs, pageRecords env a.TOKEN (env.resolveReference rootURL ref) i = Except.ok rs ∧ rs ≠ [])
    (hempty : pageRecords env a.TOKEN (env.resolveReference rootURL ref) k = Except.ok [])
    (hfuel : k ≤ fuel) :
    ∃ w, collect env a.TOKEN rgx (env.resolveReference rootURL ref) fuel 1 [] {} =
        (w, Except.ok (addMatches rgx []
          (fetchedRecords env a.TOKEN (env.resolveReference rootURL ref) (k - 1)))) ∧
      w.requests = pageRequests a.TOKEN (env.resolveReference rootURL ref) k ∧
      notRemoved w.logs = [] ∧
      main env a fuel = dispatch env a.TOKEN a.force (env.resolveReference rootURL ref)
        (addMatches rgx [] (fetchedRecords env a.TOKEN (env.resolveReference rootURL ref) (k - 1)))
        w := by
  obtain ⟨w, hc, hw, hl⟩ := collect_first_empty env a.TOKEN rgx (env.resolveReference rootURL ref)
    k fuel hk hk64 hfull hempty hfuel
  have hmain := main_of_valid env a fuel rootURL ref rgx hcfg href
  rw [hc] at hmain
  exact ⟨w, hc, hw, hl, hmain⟩

theorem mapGet_nil (d : String) : mapGet [] d = none := rfl

theorem mapGet_matches (rgx : String → Bool) (rs : List glRunner) (d : String) :
    mapGet (addMatches rgx [] rs) d = if rgx d then lastId rs d else none := by
  rw [mapGet_addMatches, mapGet_nil]
  split
  · cases lastId rs d <;> rfl
  · rfl

/-! ## C2: last write wins -/

/-- C2. On a valid configuration and a server whose first empty page is page `k`,
the match set built by `main` maps every matching description to the id of the
last record with that description in fetch order. In particular, for two
records with the same matching description on pages `i < j`, the stored id is
the id of a record with that description on page `j` or later, never one that
only an earlier page holds; it is the second record's id when the records with
that description on pages `j` and later all carry it. -/
theorem last_write_wins (env : Env) (a : Args) (rootURL ref : URL)
    (rgx : String → Bool) (k fuel : Nat)
    (hcfg : validate env a = Except.ok (rootURL, rgx))
    (href : parseURL env "api/v4/runners/" = Except.ok ref)
    (hk : 1 ≤ k) (hk64 : k < 2 ^ 64)
    (hfull : ∀ i, 1 ≤ i → i < k →
      ∃ rs, pageRecords env a.TOKEN (env.resolveReference rootURL ref) i = Except.ok rs ∧ rs ≠ [])
    (hempty : pageRecords env a.TOKEN (env.resolveReference rootURL ref) k = Except.ok [])
    (hfuel : k ≤ fuel) :
    ∃ w allRunners,
      collect env a.TOKEN rgx (env.resolveReference rootURL ref) fuel 1 [] {} =
        (w, Except.ok allRunners) ∧
      main env a fuel =
        dispatch env a.TOKEN a.force (env.resolveReference rootURL ref) allRunners w ∧
      (∀ d, rgx d = true →
        mapGet allRunners d =
          lastId (fetchedRecords env a.TOKEN (env.resolveReference rootURL ref) (k - 1)) d) ∧
      (∀ i j r1 r2, 1 ≤ i → i < j → j < k →
        r1 ∈ pageList env a.TOKEN (env.resolveReference rootURL ref) i →
        r2 ∈ pageList env a.TOKEN (env.resolveReference rootURL ref) j →
        r1.Description = r2.Description → rgx r2.Description = true →
        (∃ j' r, j ≤ j' ∧ j' < k ∧
          r ∈ pageList env a.TOKEN (env.resolveReference rootURL ref) j' ∧
          r.Description = r2.Description ∧ mapGet allRunners r2.Description = some r.ID) ∧
        ((∀ j' r, j ≤ j' → j' < k →
            r ∈ pageList env a.TOKEN (env.resolveReference rootURL ref) j' →
            r.Description = r2.Description → r.ID = r2.ID) →
          mapGet allRunners r2.Description = some r2.ID)) := by
  obtain ⟨w, hc, _, _, hmain⟩ := main_first_empty env a rootURL ref rgx k fuel hcfg href hk hk64
    hfull hempty hfuel
  refine ⟨w, _, hc, hmain, ?_, ?_⟩
  · intro d hd
    rw [mapGet_matches, if_pos hd]
  · intro i j r1 r2 hi hij hjk _ hr2 _ hrgx
    have hsplit : fetchedRecords env a.TOKEN (env.resolveReference rootURL ref) (k - 1) =
        recordsFrom env a.TOKEN (env.resolveReference rootURL ref) 1 (j - 1) ++
          recordsFrom env a.TOKEN (env.resolveReference rootURL ref) j (k - j) := by
      unfold fetchedRecords
      rw [show k - 1 = (j - 1) + (k - j) by omega, recordsFrom_add,
        show 1 + (j - 1) = j by omega]
    have hmem : r2 ∈ recordsFrom env a.TOKEN (env.resolveReference rootURL ref) j (k - j) := by
      rw [mem_recordsFrom]
      exact ⟨j, Nat.le_refl _, by omega, hr2⟩
    obtain ⟨id, hid⟩ := lastId_isSome_of_mem _ r2 hmem
    have hget : mapGet (addMatches rgx []
        (fetchedRecords env a.TOKEN (env.resolveReference rootURL ref) (k - 1))) r2.Description =
        some id := by
      rw [mapGet_matches, if_pos hrgx, hsplit, lastId_append, hid]
      rfl
    obtain ⟨r, hr, hrd, hrid⟩ := lastId_eq_some _ _ _ hid
    rw [mem_recordsFrom] at hr
    obtain ⟨j', h1, h2, h3⟩ := hr
    have hfirst : ∃ j' r, j ≤ j' ∧ j' < k ∧
        r ∈ pageList env a.TOKEN (env.resolveReference rootURL ref) j' ∧
        r.Description = r2.Description ∧
        mapGet (addMatches rgx []
          (fetchedRecords env a.TOKEN (env.resolveReference rootURL ref) (k - 1)))
          r2.Description = some r.ID :=
      ⟨j', r, h1, by omega, h3, hrd, by rw [hget, hrid]⟩
    refine ⟨hfirst, ?_⟩
    intro hall
    rw [hget, ← hrid, hall j' r h1 (by omega) h3 hrd]

/-- C2 on a server where runner 1 (page 1) and runner 2 (page 2) share the
matching description `ci-a`: the match set maps `ci-a` to 2. -/
theorem last_write_wins_witness :
    pageRecords (mockEnv sharedPages allOk) "s3cret" exampleRunnersURL 1 =
        Except.ok [{ ID := 1, Description := "ci-a" }] ∧
      pageRecords (mockEnv sharedPages allOk) "s3cret" exampleRunnersURL 2 =
        Except.ok [{ ID := 2, Description := "ci-a" }, { ID := 1, Description := "ci-b" }] ∧
      pageRecords (mockEnv sharedPages allOk) "s3cret" exampleRunnersURL 3 = Except.ok [] ∧
      ∃ w allRunners,
        collect (mockEnv sharedPages allOk) "s3cret" exampleRgx exampleRunnersURL 3 1 [] {} =
          (w, Except.ok allRunners) ∧
        mapGet allRunners "ci-a" = some 2 := by
  obtain ⟨w, m, hc, _, _, h4⟩ := last_write_wins (mockEnv sharedPages allOk) (exampleArgs false)
    { Scheme := "https", Host := "git.example", Path := "/" } { Path := "api/v4/runners/" }
    exampleRgx 3 3 rfl rfl (by decide) (by decide)
    (fun i h1 h2 => by
      have hi : i = 1 ∨ i = 2 := by omega
      rcases hi with hi | hi
      · subst hi
        exact ⟨[{ ID := 1, Description := "ci-a" }], rfl, by simp⟩
      · subst hi
        exact ⟨[{ ID := 2, Description := "ci-a" }, { ID := 1, Description := "ci-b" }], rfl,
          by simp⟩)
    rfl (by decide)
  refine ⟨rfl, rfl, rfl, w, m, hc, ?_⟩
  refine (h4 1 2 { ID := 1, Description := "ci-a" } { ID := 2, Description := "ci-a" }
    (by decide) (by decide) (by decide) (by decide) (by decide) rfl rfl).2 ?_
  intro j r hj1 hj2 hr hd
  have hj : j = 2 := by omega
  subst hj
  have hp : pageList (mockEnv sharedPages allOk) "s3cret" exampleRunnersURL 2 =
      [{ ID := 2, Description := "ci-a" }, { ID := 1, Description := "ci-b" }] := rfl
  have hr2 : r ∈ pageList (mockEnv sharedPages allOk) "s3cret" exampleRunnersURL 2 := hr
  rw [hp] at hr2
  rcases List.mem_cons.mp hr2 with h | h
  · subst h
    rfl
  · rcases List.mem_cons.mp h with h | h
    · subst h
      revert hd
      decide
    · cases h

/-! ## C7: the keys and values of the match set -/

theorem addMatches_of_no_match (rgx : String → Bool) (rs : List glRunner) :
    ∀ (m : List (String × Nat)), (∀ r ∈ rs, rgx r.Description = false) →
      addMatches rgx m rs = m := by
  induction rs with
  | nil => intro m _; rfl
  | cons r rest ih =>
    intro m h
    rw [addMatches_cons, h r (List.mem_cons_self _ _)]
    exact ih m (fun x hx => h x (List.mem_cons_of_mem _ hx))

theorem rangeOrder_nil (env : Env) : (env.rangeOrder []).1 = [] :=
  List.Perm.eq_nil (env.rangeOrder []).2

theorem dispatch_nil (env : Env) (token : String) (force : Bool) (runnersURL : URL) (w : World) :
    (dispatch env token force runnersURL [] w).world.requests = w.requests ∧
      (dispatch env token force runnersURL [] w).world.logs = w.logs ∧
      (dispatch env token force runnersURL [] w).exit = Exit.code 0 := by
  unfold dispatch
  rw [rangeOrder_nil]
  cases force with
  | false => simp [reportAll]
  | true => simp [deleteAll]

/-- C7. On a valid configuration and a server whose first empty page is page `k`,
a description is a key of the match set built by `main` exactly when it matches
the pattern and is the description of a record of pages `1..k-1`, and the value
stored under it is the id of such a record. When no record of these pages
matches, the match set is empty, and the run (a dry run in particular) logs no
`Not removed runner` record, issues no `DELETE` and ends with exit code 0. -/
theorem match_set_keys_and_values (env : Env) (a : Args) (rootURL ref : URL)
    (rgx : String → Bool) (k fuel : Nat)
    (hcfg : validate env a = Except.ok (rootURL, rgx))
    (href : parseURL env "api/v4/runners/" = Except.ok ref)
    (hk : 1 ≤ k) (hk64 : k < 2 ^ 64)
    (hfull : ∀ i, 1 ≤ i → i < k →
      ∃ rs, pageRecords env a.TOKEN (env.resolveReference rootURL ref) i = Except.ok rs ∧ rs ≠ [])
    (hempty : pageRecords env a.TOKEN (env.resolveReference rootURL ref) k = Except.ok [])
    (hfuel : k ≤ fuel) :
    ∃ w allRunners,
      collect env a.TOKEN rgx (env.resolveReference rootURL ref) fuel 1 [] {} =
        (w, Except.ok allRunners) ∧
      main env a fuel =
        dispatch env a.TOKEN a.force (env.resolveReference rootURL ref) allRunners w ∧
      (∀ d, (mapGet allRunners d).isSome = true ↔
        (rgx d = true ∧
          ∃ r ∈ fetchedRecords env a.TOKEN (env.resolveReference rootURL ref) (k - 1),
            r.Description = d)) ∧
      (∀ d id, mapGet allRunners d = some id →
        ∃ r ∈ fetchedRecords env a.TOKEN (env.resolveReference rootURL ref) (k - 1),
          r.Description = d ∧ r.ID = id) ∧
      ((∀ r ∈ fetchedRecords env a.TOKEN (env.resolveReference rootURL ref) (k - 1),
          rgx r.Description = false) →
        allRunners = [] ∧ notRemoved (main env a fuel).world.logs = [] ∧
          deletes (main env a fuel).world.requests = [] ∧
          (main env a fuel).exit = Exit.code 0) := by
  obtain ⟨w, hc, hw, hl, hmain⟩ := main_first_empty env a rootURL ref rgx k fuel hcfg href hk
    hk64 hfull hempty hfuel
  refine ⟨w, _, hc, hmain, ?_, ?_, ?_⟩
  · intro d
    rw [mapGet_matches]
    constructor
    · intro h
      by_cases hd : rgx d = true
      · rw [if_pos hd] at h
        cases hl : lastId (fetchedRecords env a.TOKEN (env.resolveReference rootURL ref) (k - 1)) d
          with
        | none => rw [hl] at h; cases h
        | some id =>
          obtain ⟨r, hr, hrd, _⟩ := lastId_eq_some _ _ _ hl
          exact ⟨hd, r, hr, hrd⟩
      · rw [if_neg hd] at h
        cases h
    · rintro ⟨hd, r, hr, hrd⟩
      rw [if_pos hd]
      obtain ⟨id, hid⟩ := lastId_isSome_of_mem _ r hr
      rw [← hrd, hid]
      rfl
  · intro d id h
    rw [mapGet_matches] at h
    by_cases hd : rgx d = true
    · rw [if_pos hd] at h
      exact lastId_eq_some _ _ _ h
    · rw [if_neg hd] at h
      cases h
  · intro hno
    have hm := addMatches_of_no_match rgx _ [] hno
    rw [hmain, hm]
    obtain ⟨d1, d2, d3⟩ := dispatch_nil env a.TOKEN a.force (env.resolveReference rootURL ref) w
    refine ⟨rfl, by rw [d2]; exact hl, ?_, d3⟩
    rw [d1, hw]
    apply deletes_eq_nil_of_get
    intro r hr
    unfold pageRequests at hr
    obtain ⟨i, _, rfl⟩ := List.mem_map.mp hr
    rfl

/-- C7 on the example scenario: the match set has the key `ci-a` and not the key
`other`. -/
theorem match_set_keys_and_values_witness :
    pageRecords (mockEnv examplePages allOk) "s3cret" exampleRunnersURL 1 =
        Except.ok [{ ID := 5, Description := "ci-a" }, { ID := 6, Description := "other" }] ∧
      pageRecords (mockEnv examplePages allOk) "s3cret" exampleRunnersURL 2 = Except.ok [] ∧
      ∃ w allRunners,
        collect (mockEnv examplePages allOk) "s3cret" exampleRgx exampleRunnersURL 2 1 [] {} =
          (w, Except.ok allRunners) ∧
        (mapGet allRunners "ci-a").isSome = true ∧ ¬ (mapGet allRunners "other").isSome = true := by
  obtain ⟨w, m, hc, _, h3, _, _⟩ := match_set_keys_and_values (mockEnv examplePages allOk)
    (exampleArgs false) { Scheme := "https", Host := "git.example", Path := "/" }
    { Path := "api/v4/runners/" } exampleRgx 2 2 rfl rfl (by decide) (by decide)
    (fun i h1 h2 => by
      have hi : i = 1 := by omega
      subst hi
      exact ⟨[{ ID := 5, Description := "ci-a" }, { ID := 6, Description := "other" }], rfl,
        by simp⟩)
    rfl (by decide)
  refine ⟨rfl, rfl, w, m, hc, ?_, ?_⟩
  · exact (h3 "ci-a").mpr ⟨rfl, { ID := 5, Description := "ci-a" }, by decide, rfl⟩
  · intro h
    have h5 := ((h3 "other").mp h).1
    revert h5
    decide

/-! ## C3: dry run or force -/

theorem req_ok_of_answeredOk (env : Env) (token method : String) (urAL : URL) (w : World)
    (h : answeredOk env w.requests (mkRequest token method urAL) = true) :
    ∃ body, (req env token method urAL w).2 = Except.ok body := by
  unfold answeredOk at h
  cases hdo : env.clientDo w.requests (mkRequest token method urAL) with
  | error e => rw [hdo] at h; cases h
  | ok res =>
    rw [hdo] at h
    simp only [Bool.and_eq_true, decide_eq_true_eq] at h
    rw [req_result_of_status_le env token method urAL w res hdo h.1]
    cases hb : res.Body with
    | error e => rw [hb] at h; cases h.2
    | ok body => exact ⟨body, rfl⟩

/-- The delete loop when every decimal id parses and every `DELETE` succeeds:
one `DELETE` per visited entry, in order, then exit code 0. -/
theorem deleteAll_all_ok (env : Env) (token : String) (runnersURL : URL) (refOf : Nat → URL) :
    ∀ (es : List (String × Nat)) (w : World),
      (∀ e ∈ es, parseURL env (Nat.repr e.2) = Except.ok (refOf e.2)) →
      eachInTurn (answeredOk env) w.requests
        (es.map (fun e => mkRequest token "DELETE"
          (env.resolveReference runnersURL (refOf e.2)))) = true →
      (deleteAll env token runnersURL es w).world.requests =
          w.requests ++
            es.map (fun e => mkRequest token "DELETE" (env.resolveReference runnersURL (refOf e.2))) ∧
        notRemoved (deleteAll env token runnersURL es w).world.logs = notRemoved w.logs ∧
        (deleteAll env token runnersURL es w).exit = Exit.code 0 := by
  intro es
  induction es with
  | nil =>
    intro w _ _
    rw [deleteAll_nil]
    simp
  | cons e rest ih =>
    intro w hparse hok
    obtain ⟨desc, id⟩ := e
    rw [List.map_cons, eachInTurn_cons, Bool.and_eq_true] at hok
    rw [deleteAll_cons, hparse (desc, id) (List.mem_cons_self _ _)]
    dsimp only
    have hrq := req_requests env token "DELETE" (env.resolveReference runnersURL (refOf id)) w
    have hlg := notRemoved_req env token "DELETE" (env.resolveReference runnersURL (refOf id)) w
    obtain ⟨body, hbody⟩ := req_ok_of_answeredOk env token "DELETE"
      (env.resolveReference runnersURL (refOf id)) w hok.1
    rcases hr : req env token "DELETE" (env.resolveReference runnersURL (refOf id)) w with
      ⟨w1, res⟩
    rw [hr] at hrq hlg hbody
    dsimp only at hrq hlg hbody
    subst hbody
    dsimp only
    obtain ⟨h1, h2, h3⟩ := ih w1 (fun x hx => hparse x (List.mem_cons_of_mem _ hx))
      (by rw [hrq]; exact hok.2)
    refine ⟨?_, ?_, h3⟩
    · rw [h1, hrq]
      simp
    · rw [h2, hlg]

/-- The forced dispatcher when every decimal id parses and every `DELETE`
succeeds. -/
theorem dispatch_force_ok (env : Env) (token : String) (runnersURL : URL)
    (allRunners : List (String × Nat)) (w : World) (refOf : Nat → URL)
    (hparse : ∀ e ∈ allRunners, parseURL env (Nat.repr e.2) = Except.ok (refOf e.2))
    (hok : eachInTurn (answeredOk env) w.requests
      (deleteRequests env token runnersURL refOf (env.rangeOrder allRunners).1) = true) :
    (dispatch env token true runnersURL allRunners w).world.requests =
        w.requests ++ deleteRequests env token runnersURL refOf (env.rangeOrder allRunners).1 ∧
      notRemoved (dispatch env token true runnersURL allRunners w).world.logs =
        notRemoved w.logs ∧
      (dispatch env token true runnersURL allRunners w).exit = Exit.code 0 :=
  deleteAll_all_ok env token { runnersURL with RawQuery := "" } refOf
    (env.rangeOrder allRunners).1 w
    (fun e he => hparse e ((env.rangeOrder allRunners).2.mem_iff.mp he)) hok

theorem notRemoved_append_logs (logs : List LogEntry) (entries : List (String × Nat)) :
    notRemoved (logs ++ entries.map (fun e => notRemovedLog e.1 e.2)) =
      notRemoved logs ++ entries.map (fun e => notRemovedLog e.1 e.2) := by
  unfold notRemoved
  rw [List.filter_append]
  congr 1
  rw [List.filter_eq_self]
  intro e he
  obtain ⟨x, _, rfl⟩ := List.mem_map.mp he
  rfl

/-- C3 as stated fails: runners 1 and 2 are both fetched with the matching
description `ci-a`, every request succeeds, and the forced run issues a single
`DELETE`, for runner 2; the matched id 1 gets none. -/
theorem delete_not_per_matched_runner :
    pageRecords (mockEnv twinPages allOk) "s3cret" exampleRunnersURL 1 =
        Except.ok [{ ID := 1, Description := "ci-a" }, { ID := 2, Description := "ci-a" }] ∧
      pageRecords (mockEnv twinPages allOk) "s3cret" exampleRunnersURL 2 = Except.ok [] ∧
      exampleRgx "ci-a" = true ∧
      (main (mockEnv twinPages allOk) (exampleArgs true) 2).exit = Exit.code 0 ∧
      deletes (main (mockEnv twinPages allOk) (exampleArgs true) 2).world.requests =
        [mkRequest "s3cret" "DELETE" { exampleRunnersURL with Path := "/api/v4/runners/2" }] :=
  ⟨rfl, rfl, rfl, by decide, by decide⟩

/-- C3, amended. For every match set: with `force = false` the dispatcher issues
no request at all and logs one `Not removed runner` record per entry; with
`force = true`, when every decimal id parses and every `DELETE` succeeds, it
issues exactly one `DELETE` per entry of the match set, for the id stored in
that entry, logs no `Not removed runner` record and ends with exit code 0. The
entries are visited in some permutation of the match set. -/
theorem dispatch_dry_run_or_force (env : Env) (token : String) (runnersURL : URL)
    (allRunners : List (String × Nat)) (w : World) (refOf : Nat → URL) :
    ((dispatch env token false runnersURL allRunners w).world.requests = w.requests ∧
        notRemoved (dispatch env token false runnersURL allRunners w).world.logs =
          notRemoved w.logs ++ (env.rangeOrder allRunners).1.map (fun e => notRemovedLog e.1 e.2) ∧
        (dispatch env token false runnersURL allRunners w).exit = Exit.code 0) ∧
      ((∀ e ∈ allRunners, parseURL env (Nat.repr e.2) = Except.ok (refOf e.2)) →
        eachInTurn (answeredOk env) w.requests
          (deleteRequests env token runnersURL refOf (env.rangeOrder allRunners).1) = true →
        (dispatch env token true runnersURL allRunners w).world.requests =
            w.requests ++
              deleteRequests env token runnersURL refOf (env.rangeOrder allRunners).1 ∧
          notRemoved (dispatch env token true runnersURL allRunners w).world.logs =
            notRemoved w.logs ∧
          (dispatch env token true runnersURL allRunners w).exit = Exit.code 0) ∧
      (env.rangeOrder allRunners).1.Perm allRunners := by
  refine ⟨⟨rfl, ?_, rfl⟩, ?_, (env.rangeOrder allRunners).2⟩
  · exact notRemoved_append_logs w.logs (env.rangeOrder allRunners).1
  · intro hparse hok
    exact dispatch_force_ok env token runnersURL allRunners w refOf hparse hok

/-- C3, amended, on the match set of the example scenario: the dry run issues no
request and the forced run exactly the `DELETE` of runner 5. -/
theorem dispatch_dry_run_or_force_witness :
    (dispatch (mockEnv examplePages allOk) "s3cret" false exampleRunnersURL [("ci-a", 5)]
        {}).world.requests = [] ∧
      (dispatch (mockEnv examplePages allOk) "s3cret" true exampleRunnersURL [("ci-a", 5)]
        {}).world.requests =
          [mkRequest "s3cret" "DELETE" { exampleRunnersURL with Path := "/api/v4/runners/5" }] :=
  ⟨(dispatch_dry_run_or_force (mockEnv examplePages allOk) "s3cret" exampleRunnersURL
      [("ci-a", 5)] {} (fun id => { Path := Nat.repr id })).1.1,
    ((dispatch_dry_run_or_force (mockEnv examplePages allOk) "s3cret" exampleRunnersURL
      [("ci-a", 5)] {} (fun id => { Path := Nat.repr id })).2.1
      (fun e he => by
        simp only [List.mem_singleton] at he
        subst he
        rfl)
      rfl).1⟩

/-! ## C10: one `DELETE` per distinct matching description -/

theorem mem_keys_matches (rgx : String → Bool) (rs : List glRunner) (d : String) :
    d ∈ (addMatches rgx [] rs).map Prod.fst ↔ d ∈ matchingDescriptions rgx rs := by
  rw [← mapGet_isSome_iff, mapGet_matches]
  unfold matchingDescriptions
  rw [List.mem_dedup, List.mem_filter, List.mem_map]
  constructor
  · intro h
    by_cases hd : rgx d = true
    · rw [if_pos hd] at h
      cases hl : lastId rs d with
      | none => rw [hl] at h; cases h
      | some id =>
        obtain ⟨r, hr, hrd, _⟩ := lastId_eq_some _ _ _ hl
        exact ⟨⟨r, hr, hrd⟩, hd⟩
    · rw [if_neg hd] at h
      cases h
  · rintro ⟨⟨r, hr, hrd⟩, hd⟩
    rw [if_pos hd]
    obtain ⟨id, hid⟩ := lastId_isSome_of_mem _ r hr
    rw [← hrd, hid]
    rfl

theorem nodup_keys_matches (rgx : String → Bool) (rs : List glRunner) :
    ((addMatches rgx [] rs).map Prod.fst).Nodup :=
  nodup_keys_addMatches rgx rs [] (by simp)

theorem length_matches (rgx : String → Bool) (rs : List glRunner) :
    (addMatches rgx [] rs).length = (matchingDescriptions rgx rs).length := by
  have hperm : ((addMatches rgx [] rs).map Prod.fst).Perm (matchingDescriptions rgx rs) :=
    (List.perm_ext_iff_of_nodup (nodup_keys_matches rgx rs)
      (List.nodup_dedup _)).mpr (fun d => mem_keys_matches rgx rs d)
  rw [← hperm.length_eq, List.length_map]

theorem deletes_append_deletes (gets : List Request) (hg : ∀ r ∈ gets, r.Method = "GET")
    (dels : List Request) (hd : ∀ r ∈ dels, r.Method = "DELETE") :
    deletes (gets ++ dels) = dels := by
  have h1 := deletes_eq_nil_of_get gets hg
  unfold deletes at h1 ⊢
  rw [List.filter_append, h1, List.nil_append, List.filter_eq_self]
  intro r hr
  rw [hd r hr]
  decide

theorem filter_key_of_mem (l : List (String × Nat)) (d : String) (id : Nat)
    (hnd : (l.map Prod.fst).Nodup) (hmem : (d, id) ∈ l) :
    l.filter (fun e => decide (e.1 = d)) = [(d, id)] := by
  induction l with
  | nil => cases hmem
  | cons e rest ih =>
    rw [List.map_cons, List.nodup_cons] at hnd
    rcases List.mem_cons.mp hmem with h | h
    · subst h
      rw [List.filter_cons_of_pos (by simp)]
      congr 1
      rw [List.filter_eq_nil_iff]
      intro x hx hxd
      apply hnd.1
      have hxd2 : x.1 = d := by simpa using hxd
      rw [← hxd2]
      exact List.mem_map.mpr ⟨x, hx, rfl⟩
    · have hne : ¬ e.1 = d := by
        intro he
        apply hnd.1
        rw [he]
        exact List.mem_map.mpr ⟨(d, id), h, rfl⟩
      rw [List.filter_cons_of_neg (by simpa using hne)]
      exact ih hnd.2 h

/-- C10 as stated fails: runners 1 and 2 share the matching description `ci-a`
(fetched in that order), runner 1 is also fetched as `ci-b`, every request
succeeds, and the forced run issues a `DELETE` for runner 2 and one for
runner 1, the id of the earlier `ci-a` record. -/
theorem earlier_id_still_deleted :
    fetchedRecords (mockEnv sharedPages allOk) "s3cret" exampleRunnersURL 2 =
        [{ ID := 1, Description := "ci-a" }, { ID := 2, Description := "ci-a" },
          { ID := 1, Description := "ci-b" }] ∧
      pageRecords (mockEnv sharedPages allOk) "s3cret" exampleRunnersURL 3 = Except.ok [] ∧
      exampleRgx "ci-a" = true ∧
      (main (mockEnv sharedPages allOk) (exampleArgs true) 3).exit = Exit.code 0 ∧
      deletes (main (mockEnv sharedPages allOk) (exampleArgs true) 3).world.requests =
        [mkRequest "s3cret" "DELETE" { exampleRunnersURL with Path := "/api/v4/runners/2" },
          mkRequest "s3cret" "DELETE" { exampleRunnersURL with Path := "/api/v4/runners/1" }] :=
  ⟨rfl, rfl, rfl, by decide, by decide⟩

/-- C10, amended. In force mode on a valid configuration and a server whose first
empty page is page `k`, when every decimal id parses and every `DELETE`
succeeds, the run ends with exit code 0 and its requests are the `k` page
fetches followed by one `DELETE` per entry of the match set, visited in some
order. Their number is the number of distinct matching descriptions among the
fetched records. For a matching description of a fetched record exactly one
entry is visited, and it carries the id of the last fetched record with that
description. The id of any other fetched record gets no `DELETE` unless it is
the last fetched id of some matching description. -/
theorem deletes_per_distinct_description (env : Env) (a : Args) (rootURL ref : URL)
    (rgx : String → Bool) (k fuel : Nat) (refOf : Nat → URL)
    (hcfg : validate env a = Except.ok (rootURL, rgx))
    (href : parseURL env "api/v4/runners/" = Except.ok ref)
    (hk : 1 ≤ k) (hk64 : k < 2 ^ 64)
    (hfull : ∀ i, 1 ≤ i → i < k →
      ∃ rs, pageRecords env a.TOKEN (env.resolveReference rootURL ref) i = Except.ok rs ∧ rs ≠ [])
    (hempty : pageRecords env a.TOKEN (env.resolveReference rootURL ref) k = Except.ok [])
    (hfuel : k ≤ fuel)
    (hforce : a.force = true)
    (hparse : ∀ e ∈ addMatches rgx []
        (fetchedRecords env a.TOKEN (env.resolveReference rootURL ref) (k - 1)),
      parseURL env (Nat.repr e.2) = Except.ok (refOf e.2))
    (hok : eachInTurn (answeredOk env) (pageRequests a.TOKEN (env.resolveReference rootURL ref) k)
      (deleteRequests env a.TOKEN (env.resolveReference rootURL ref) refOf
        (env.rangeOrder (addMatches rgx []
          (fetchedRecords env a.TOKEN (env.resolveReference rootURL ref) (k - 1)))).1) = true) :
    ∃ visited : List (String × Nat),
      visited.Perm (addMatches rgx []
        (fetchedRecords env a.TOKEN (env.resolveReference rootURL ref) (k - 1))) ∧
      (main env a fuel).exit = Exit.code 0 ∧
      (main env a fuel).world.requests =
        pageRequests a.TOKEN (env.resolveReference rootURL ref) k ++
          deleteRequests env a.TOKEN (env.resolveReference rootURL ref) refOf visited ∧
      (deletes (main env a fuel).world.requests).length =
        (matchingDescriptions rgx
          (fetchedRecords env a.TOKEN (env.resolveReference rootURL ref) (k - 1))).length ∧
      (∀ d id, rgx d = true →
        lastId (fetchedRecords env a.TOKEN (env.resolveReference rootURL ref) (k - 1)) d =
          some id →
        visited.filter (fun e => decide (e.1 = d)) = [(d, id)]) ∧
      (∀ r ∈ fetchedRecords env a.TOKEN (env.resolveReference rootURL ref) (k - 1),
        (∀ d, rgx d = true →
          lastId (fetchedRecords env a.TOKEN (env.resolveReference rootURL ref) (k - 1)) d ≠
            some r.ID) →
        r.ID ∉ visited.map Prod.snd) := by
  obtain ⟨w, _, hw, _, hmain⟩ := main_first_empty env a rootURL ref rgx k fuel hcfg href hk
    hk64 hfull hempty hfuel
  have hperm := (env.rangeOrder (addMatches rgx []
    (fetchedRecords env a.TOKEN (env.resolveReference rootURL ref) (k - 1)))).2
  obtain ⟨hreq, _, hexit⟩ := dispatch_force_ok env a.TOKEN (env.resolveReference rootURL ref)
    (addMatches rgx [] (fetchedRecords env a.TOKEN (env.resolveReference rootURL ref) (k - 1)))
    w refOf hparse (by rw [hw]; exact hok)
  rw [hforce] at hmain
  rw [← hmain, hw] at hreq
  rw [← hmain] at hexit
  have hnd := nodup_keys_matches rgx
    (fetchedRecords env a.TOKEN (env.resolveReference rootURL ref) (k - 1))
  refine ⟨_, hperm, hexit, hreq, ?_, ?_, ?_⟩
  · rw [hreq, deletes_append_deletes]
    · unfold deleteRequests
      rw [List.length_map, hperm.length_eq, length_matches]
    · intro r hr
      unfold pageRequests at hr
      obtain ⟨i, _, rfl⟩ := List.mem_map.mp hr
      rfl
    · intro r hr
      unfold deleteRequests at hr
      obtain ⟨e, _, rfl⟩ := List.mem_map.mp hr
      rfl
  · intro d id hd hlast
    have hget : mapGet (addMatches rgx []
        (fetchedRecords env a.TOKEN (env.resolveReference rootURL ref) (k - 1))) d = some id := by
      rw [mapGet_matches, if_pos hd, hlast]
    exact filter_key_of_mem _ d id ((hperm.map Prod.fst).nodup_iff.mpr hnd)
      (hperm.mem_iff.mpr (mem_of_mapGet _ _ _ hget))
  · intro r _ hnot hmem
    obtain ⟨e, he, hid⟩ := List.mem_map.mp hmem
    have hget := mapGet_of_mem _ e.1 e.2 hnd (hperm.mem_iff.mp he)
    rw [mapGet_matches] at hget
    by_cases hd : rgx e.1 = true
    · rw [if_pos hd, hid] at hget
      exact hnot e.1 hd hget
    · rw [if_neg hd] at hget
      cases hget

/-- C10, amended, on the server where runners 1 and 2 share `ci-a` and runner 1
is also fetched as `ci-b`: two distinct matching descriptions, two `DELETE`s. -/
theorem deletes_per_distinct_description_witness :
    fetchedRecords (mockEnv sharedPages allOk) "s3cret" exampleRunnersURL 2 =
        [{ ID := 1, Description := "ci-a" }, { ID := 2, Description := "ci-a" },
          { ID := 1, Description := "ci-b" }] ∧
      pageRecords (mockEnv sharedPages allOk) "s3cret" exampleRunnersURL 3 = Except.ok [] ∧
      (main (mockEnv sharedPages allOk) (exampleArgs true) 3).exit = Exit.code 0 ∧
      (deletes (main (mockEnv sharedPages allOk) (exampleArgs true) 3).world.requests).length =
        (matchingDescriptions exampleRgx
          (fetchedRecords (mockEnv sharedPages allOk) "s3cret" exampleRunnersURL 2)).length := by
  have hm : addMatches exampleRgx []
      (fetchedRecords (mockEnv sharedPages allOk) "s3cret" exampleRunnersURL 2) =
      [("ci-a", 2), ("ci-b", 1)] := by decide
  obtain ⟨visited, _, hexit, _, hlen, _, _⟩ := deletes_per_distinct_description
    (mockEnv sharedPages allOk) (exampleArgs true)
    { Scheme := "https", Host := "git.example", Path := "/" } { Path := "api/v4/runners/" }
    exampleRgx 3 3 (fun id => { Path := Nat.repr id }) rfl rfl (by decide) (by decide)
    (fun i h1 h2 => by
      have hi : i = 1 ∨ i = 2 := by omega
      rcases hi with hi | hi
      · subst hi
        exact ⟨[{ ID := 1, Description := "ci-a" }], rfl, by simp⟩
      · subst hi
        exact ⟨[{ ID := 2, Description := "ci-a" }, { ID := 1, Description := "ci-b" }], rfl,
          by simp⟩)
    rfl (by decide) rfl
    (fun e he => by
      have he2 : e ∈ addMatches exampleRgx []
          (fetchedRecords (mockEnv sharedPages allOk) "s3cret" exampleRunnersURL 2) := he
      rw [hm] at he2
      rcases List.mem_cons.mp he2 with h | h
      · subst h
        rfl
      · rcases List.mem_cons.mp h with h | h
        · subst h
          rfl
        · cases h)
    (by decide)
  exact ⟨rfl, rfl, hexit, hlen⟩

/-! ## C8: the example scenario -/

theorem rangeOrder_singleton (env : Env) (e : String × Nat) : (env.rangeOrder [e]).1 = [e] :=
  List.perm_singleton.mp (env.rangeOrder [e]).2

/-- The delete loop on a single entry issues exactly one `DELETE`, whatever the
server answers. -/
theorem deleteAll_singleton (env : Env) (token : String) (runnersURL ref : URL) (desc : String)
    (id : Nat) (w : World) (hparse : parseURL env (Nat.repr id) = Except.ok ref) :
    (deleteAll env token runnersURL [(desc, id)] w).world.requests =
      w.requests ++ [mkRequest token "DELETE" (env.resolveReference runnersURL ref)] := by
  rw [deleteAll_cons, hparse]
  dsimp only
  have hrq := req_requests env token "DELETE" (env.resolveReference runnersURL ref) w
  rcases hr : req env token "DELETE" (env.resolveReference runnersURL ref) w with ⟨w1, e | body⟩
  · rw [hr] at hrq
    exact hrq
  · rw [hr] at hrq
    exact hrq

/-- The example scenario, stated with the helper definitions of the embedding;
`example_scenario` below writes every request and record out. -/
theorem example_scenario_aux (env : Env) (rgx : String → Bool) (token arg0 : String) (fuel : Nat)
    (htoken : token ≠ "")
    (hbase : env.urlParse "https://git.example/" =
      Except.ok { Scheme := "https", Host := "git.example", Path := "/" })
    (hcompile : env.regexpCompile "^ci-" = Except.ok rgx)
    (hci : rgx "ci-a" = true) (hother : rgx "other" = false)
    (hrel : env.urlParse "api/v4/runners/" = Except.ok { Path := "api/v4/runners/" })
    (hresolve : env.resolveReference { Scheme := "https", Host := "git.example", Path := "/" }
      { Path := "api/v4/runners/" } = exampleRunnersURL)
    (hfive : env.urlParse "5" = Except.ok { Path := "5" })
    (hresolve5 : env.resolveReference exampleRunnersURL { Path := "5" } =
      { Scheme := "https", Host := "git.example", Path := "/api/v4/runners/5" })
    (hpage1 : pageRecords env token exampleRunnersURL 1 =
      Except.ok [{ ID := 5, Description := "ci-a" }, { ID := 6, Description := "other" }])
    (hpage2 : pageRecords env token exampleRunnersURL 2 = Except.ok [])
    (hfuel : 2 ≤ fuel) :
    (collect env token rgx exampleRunnersURL fuel 1 [] {}).2 = Except.ok [("ci-a", 5)] ∧
      (main env (scenarioArgs token arg0 false) fuel).world.requests =
        [mkRequest token "GET" { exampleRunnersURL with RawQuery := "page=1" },
         mkRequest token "GET" { exampleRunnersURL with RawQuery := "page=2" }] ∧
      notRemoved (main env (scenarioArgs token arg0 false) fuel).world.logs =
        [notRemovedLog "ci-a" 5] ∧
      (main env (scenarioArgs token arg0 false) fuel).exit = Exit.code 0 ∧
      (main env (scenarioArgs token arg0 true) fuel).world.requests =
        [mkRequest token "GET" { exampleRunnersURL with RawQuery := "page=1" },
         mkRequest token "GET" { exampleRunnersURL with RawQuery := "page=2" },
         mkRequest token "DELETE"
           { Scheme := "https", Host := "git.example", Path := "/api/v4/runners/5",
             RawQuery := "" }] := by
  have hcfg : ∀ force, validate env (scenarioArgs token arg0 force) =
      Except.ok ({ Scheme := "https", Host := "git.example", Path := "/" }, rgx) := by
    intro force
    rw [validate_ok_iff]
    refine ⟨?_, ?_, htoken, _, hbase, hcompile, by decide⟩
    · show ("https://git.example/" : String) ≠ ""
      decide
    · show ("^ci-" : String) ≠ ""
      decide
  have hfull : ∀ i, 1 ≤ i → i < 2 → ∃ rs, pageRecords env token
      (env.resolveReference { Scheme := "https", Host := "git.example", Path := "/" }
        { Path := "api/v4/runners/" }) i = Except.ok rs ∧ rs ≠ [] := by
    intro i h1 h2
    have hi : i = 1 := by omega
    subst hi
    rw [hresolve]
    exact ⟨_, hpage1, by simp⟩
  have hrecs : fetchedRecords env token
      exampleRunnersURL 1 =
      [{ ID := 5, Description := "ci-a" }, { ID := 6, Description := "other" }] := by
    simp only [fetchedRecords, recordsFrom, List.append_nil]
    exact pageList_of_ok _ _ _ _ _ hpage1
  have hmap : addMatches rgx [] (fetchedRecords env token
      exampleRunnersURL 1) =
      [("ci-a", 5)] := by
    rw [hrecs]
    simp [addMatches, hci, hother, mapSet]
  have hmain : ∀ force, ∃ w, collect env token rgx
        exampleRunnersURL fuel 1 [] {} =
          (w, Except.ok [("ci-a", 5)]) ∧
      w.requests = pageRequests token
        exampleRunnersURL 2 ∧
      notRemoved w.logs = [] ∧
      main env (scenarioArgs token arg0 force) fuel =
        dispatch env token force
          exampleRunnersURL
          [("ci-a", 5)] w := by
    intro force
    have h := main_first_empty env (scenarioArgs token arg0 force)
      { Scheme := "https", Host := "git.example", Path := "/" } { Path := "api/v4/runners/" }
      rgx 2 fuel (hcfg force) hrel (by decide) (by decide) hfull
      (by rw [hresolve]; exact hpage2) hfuel
    have hrw : env.resolveReference { Scheme := "https", Host := "git.example", Path := "/" }
        { Path := "api/v4/runners/" } = exampleRunnersURL := hresolve
    have htok : (scenarioArgs token arg0 force).TOKEN = token := rfl
    have hfor : (scenarioArgs token arg0 force).force = force := rfl
    rw [hrw, htok, hfor, show 2 - 1 = 1 from rfl, hmap] at h
    exact h
  have hreqs : pageRequests token
      exampleRunnersURL 2 =
      [mkRequest token "GET" { exampleRunnersURL with RawQuery := "page=1" },
       mkRequest token "GET" { exampleRunnersURL with RawQuery := "page=2" }] := by
    have h1 : "page=" ++ Nat.repr 1 = "page=1" := by decide
    have h2 : "page=" ++ Nat.repr 2 = "page=2" := by decide
    simp only [pageRequests, List.range_succ, List.range_zero, List.nil_append, List.map_cons,
      List.map_nil, List.cons_append, mkRequest, pageURL, h1, h2]
  obtain ⟨w, hc, hw, hl, hdry⟩ := hmain false
  obtain ⟨w', hc', hw', _, hforced⟩ := hmain true
  refine ⟨by rw [hc], ?_, ?_, ?_, ?_⟩
  · rw [hdry]
    unfold dispatch
    simp only [Bool.false_eq_true, if_false, reportAll]
    rw [hw, hreqs]
  · rw [hdry]
    unfold dispatch
    simp only [Bool.false_eq_true, if_false, reportAll, rangeOrder_singleton]
    rw [notRemoved_append_logs, hl]
    rfl
  · rw [hdry]
    rfl
  · rw [hforced]
    unfold dispatch
    simp only [if_true, rangeOrder_singleton]
    have h5 : parseURL env (Nat.repr 5) = Except.ok { Path := "5" } := by
      have h : Nat.repr 5 = "5" := by decide
      rw [h]
      exact hfive
    have h0 : ({ exampleRunnersURL with RawQuery := "" } : URL) = exampleRunnersURL := rfl
    rw [h0, deleteAll_singleton env token _ { Path := "5" } "ci-a" 5 w' h5, hw', hreqs, hresolve5]
    rfl

/-- C8. Base URL `https://git.example/`, pattern `^ci-`, page 1 holding runner 5
`ci-a` and runner 6 `other`, page 2 empty, the library parsing and resolving
these URLs as Go does: `main` fetches exactly pages 1 and 2 of
`https://git.example/api/v4/runners/` and builds the match set `ci-a -> 5`; the
dry run then logs exactly one `Not removed runner` record, for id 5 and `ci-a`,
issues no `DELETE` and ends with exit code 0; the forced run issues exactly one
`DELETE`, to `https://git.example/api/v4/runners/5` with an empty query, and
none for id 6. -/
theorem example_scenario (env : Env) (rgx : String → Bool) (token arg0 : String) (fuel : Nat)
    (htoken : token ≠ "")
    (hbase : env.urlParse "https://git.example/" =
      Except.ok { Scheme := "https", Host := "git.example", Path := "/" })
    (hcompile : env.regexpCompile "^ci-" = Except.ok rgx)
    (hci : rgx "ci-a" = true) (hother : rgx "other" = false)
    (hrel : env.urlParse "api/v4/runners/" = Except.ok { Path := "api/v4/runners/" })
    (hresolve : env.resolveReference { Scheme := "https", Host := "git.example", Path := "/" }
      { Path := "api/v4/runners/" } = { Scheme := "https", Host := "git.example", Path := "/api/v4/runners/" })
    (hfive : env.urlParse "5" = Except.ok { Path := "5" })
    (hresolve5 : env.resolveReference { Scheme := "https", Host := "git.example", Path := "/api/v4/runners/" } { Path := "5" } =
      { Scheme := "https", Host := "git.example", Path := "/api/v4/runners/5" })
    (hpage1 : pageRecords env token { Scheme := "https", Host := "git.example", Path := "/api/v4/runners/" } 1 =
      Except.ok [{ ID := 5, Description := "ci-a" }, { ID := 6, Description := "other" }])
    (hpage2 : pageRecords env token { Scheme := "https", Host := "git.example", Path := "/api/v4/runners/" } 2 = Except.ok [])
    (hfuel : 2 ≤ fuel) :
    (collect env token rgx { Scheme := "https", Host := "git.example", Path := "/api/v4/runners/" } fuel 1 [] {}).2 = Except.ok [("ci-a", 5)] ∧
      (main env { baseUrl := "https://git.example/", pattern := "^ci-", force := false, TOKEN := token, arg0 := arg0 } fuel).world.requests =
        [{ Method := "GET", URL := { Scheme := "https", Host := "git.example", Path := "/api/v4/runners/", RawQuery := "page=1" }, Header := [("Private-Token", [token])] },
         { Method := "GET", URL := { Scheme := "https", Host := "git.example", Path := "/api/v4/runners/", RawQuery := "page=2" }, Header := [("Private-Token", [token])] }] ∧
      (main env { baseUrl := "https://git.example/", pattern := "^ci-", force := false, TOKEN := token, arg0 := arg0 } fuel).world.logs.filter
          (fun e => decide (e.msg = "Not removed runner")) =
        [{ level := Level.Info, msg := "Not removed runner", fields := [("id", FieldValue.uint 5), ("description", FieldValue.str "ci-a")] }] ∧
      (main env { baseUrl := "https://git.example/", pattern := "^ci-", force := false, TOKEN := token, arg0 := arg0 } fuel).exit = Exit.code 0 ∧
      (main env { baseUrl := "https://git.example/", pattern := "^ci-", force := true, TOKEN := token, arg0 := arg0 } fuel).world.requests =
        [{ Method := "GET", URL := { Scheme := "https", Host := "git.example", Path := "/api/v4/runners/", RawQuery := "page=1" }, Header := [("Private-Token", [token])] },
         { Method := "GET", URL := { Scheme := "https", Host := "git.example", Path := "/api/v4/runners/", RawQuery := "page=2" }, Header := [("Private-Token", [token])] },
         { Method := "DELETE", URL := { Scheme := "https", Host := "git.example", Path := "/api/v4/runners/5", RawQuery := "" }, Header := [("Private-Token", [token])] }] :=
  example_scenario_aux env rgx token arg0 fuel htoken hbase hcompile hci hother hrel hresolve
    hfive hresolve5 hpage1 hpage2 hfuel

/-- C8 on the test double: its parser, resolver, pattern compiler and server meet
the hypotheses; the dry run logs the one record for id 5 and `ci-a`, and the
forced run issues the three requests of the scenario. -/
theorem example_scenario_witness :
    (mockEnv examplePages allOk).urlParse "https://git.example/" =
        Except.ok { Scheme := "https", Host := "git.example", Path := "/" } ∧
      (mockEnv examplePages allOk).resolveReference { Scheme := "https", Host := "git.example", Path := "/api/v4/runners/" } { Path := "5" } =
        { Scheme := "https", Host := "git.example", Path := "/api/v4/runners/5" } ∧
      pageRecords (mockEnv examplePages allOk) "s3cret" { Scheme := "https", Host := "git.example", Path := "/api/v4/runners/" } 1 =
        Except.ok [{ ID := 5, Description := "ci-a" }, { ID := 6, Description := "other" }] ∧
      pageRecords (mockEnv examplePages allOk) "s3cret" { Scheme := "https", Host := "git.example", Path := "/api/v4/runners/" } 2 = Except.ok [] ∧
      (main (mockEnv examplePages allOk) { baseUrl := "https://git.example/", pattern := "^ci-", force := false, TOKEN := "s3cret", arg0 := "gitlab-rm-runners" } 2).world.logs.filter
          (fun e => decide (e.msg = "Not removed runner")) =
        [{ level := Level.Info, msg := "Not removed runner", fields := [("id", FieldValue.uint 5), ("description", FieldValue.str "ci-a")] }] ∧
      (main (mockEnv examplePages allOk) { baseUrl := "https://git.example/", pattern := "^ci-", force := true, TOKEN := "s3cret", arg0 := "gitlab-rm-runners" } 2).world.requests =
        [{ Method := "GET", URL := { Scheme := "https", Host := "git.example", Path := "/api/v4/runners/", RawQuery := "page=1" }, Header := [("Private-Token", ["s3cret"])] },
         { Method := "GET", URL := { Scheme := "https", Host := "git.example", Path := "/api/v4/runners/", RawQuery := "page=2" }, Header := [("Private-Token", ["s3cret"])] },
         { Method := "DELETE", URL := { Scheme := "https", Host := "git.example", Path := "/api/v4/runners/5", RawQuery := "" }, Header := [("Private-Token", ["s3cret"])] }] :=
  ⟨rfl, rfl, rfl, rfl,
    (example_scenario (mockEnv examplePages allOk) exampleRgx "s3cret" "gitlab-rm-runners" 2
      (by decide) rfl rfl rfl rfl rfl rfl rfl rfl rfl rfl (by decide)).2.2.1,
    (example_scenario (mockEnv examplePages allOk) exampleRgx "s3cret" "gitlab-rm-runners" 2
      (by decide) rfl rfl rfl rfl rfl rfl rfl rfl rfl rfl (by decide)).2.2.2.2⟩

end GitlabRmRunners
